import Mathlib

/-!
Verification of the RAG vector-store core of xx-cli (internal/rag).

Modelling conventions:
* Go strings are modelled as lists of bytes (`List Nat`).
* A `float32` is identified with its 32-bit pattern where serialization is
  concerned (`Nat`, meant to be `< 2^32`); its numeric value is recovered by a
  parameter `f32val : Nat → ℚ` (every IEEE-754 binary32 value is rational).
* Float arithmetic (`+`, `*`, `/`, comparisons) is modelled exactly over `ℚ`;
  the transcendental primitives `math.Sqrt` and `math.Log` are abstract
  parameters `fsqrt flog : ℚ → ℚ`, and float32/float64 narrowing is dropped.
* Go `int32` counters are modelled as `ℤ` with explicit wraparound (`inc32`)
  where the code increments them.
* `sort.Slice` (the Go standard library) is modelled two ways: abstractly by
  its documented contract (a permutation that is sorted w.r.t. the comparator,
  with no stability guarantee), and concretely by a translation of the
  stdlib pdqsort used by Go 1.19+ (`goSortSlice`).
-/

/-- Byte list of an ASCII string literal (codepoints equal UTF-8 bytes for ASCII). -/
def strBytes (s : String) : List Nat := s.toList.map Char.toNat

/-- internal/rag/store.go: `Document` — one entry of the vector store. -/
structure Document where
  text : List Nat
  source : List Nat
  category : List Nat
  vector : List Nat
  successCount : Int
  failureCount : Int
  deriving DecidableEq, Repr, Inhabited

/-- internal/rag/store.go: `SearchResult` — a document with its final score. -/
structure SearchResult where
  doc : Document
  score : ℚ
  deriving DecidableEq, Repr, Inhabited

/-- Sum of squares of the decoded elements of a vector
(the `magA` / `magB` accumulators of `cosineSimilarity`). -/
def sumSquares (f32val : Nat → ℚ) (v : List Nat) : ℚ :=
  ((v.map f32val).map (fun x => x * x)).sum

/-- Dot product of two decoded vectors (the `dot` accumulator of `cosineSimilarity`). -/
def dotProd (f32val : Nat → ℚ) (a b : List Nat) : ℚ :=
  (List.zipWith (fun x y => x * y) (a.map f32val) (b.map f32val)).sum

/-- internal/rag/store.go: `cosineSimilarity`.  Returns 0 on length mismatch or
empty input; computes dot, magA, magB in one loop, takes the two square roots,
returns 0 when the denominator is zero, else dot/denom. -/
def cosineSimilarity (f32val : Nat → ℚ) (fsqrt : ℚ → ℚ) (a b : List Nat) : ℚ :=
  if a.length ≠ b.length ∨ a.length = 0 then 0
  else
    let dot := dotProd f32val a b
    let magA := sumSquares f32val a
    let magB := sumSquares f32val b
    let denom := fsqrt magA * fsqrt magB
    if denom = 0 then 0 else dot / denom

/-- internal/rag/store.go: `adaptiveScore`.
`multiplier := 1 + ln(1+successes) - 0.5*ln(1+failures)`, floored at 0.01,
then multiplied into the cosine. -/
def adaptiveScore (flog : ℚ → ℚ) (cosine : ℚ) (successes failures : Int) : ℚ :=
  let multiplier := 1 + flog (1 + (successes : ℚ)) - (1/2) * flog (1 + (failures : ℚ))
  let multiplier := if multiplier < 1/100 then 1/100 else multiplier
  cosine * multiplier

/-- internal/rag/store.go, `Store.Search`: the `switch doc.Source` boost —
builtin ×1.20, learned ×1.10, anything else unchanged. -/
def applySourceBoost (source : List Nat) (score : ℚ) : ℚ :=
  if source = strBytes "builtin" then score * (12/10)
  else if source = strBytes "learned" then score * (11/10)
  else score

/-- The result list `Store.Search` builds before sorting: one entry per document
surviving the category pre-filter, in store order, carrying the final score. -/
def searchResultsPre (f32val : Nat → ℚ) (fsqrt flog : ℚ → ℚ)
    (docs : List Document) (queryVec : List Nat) (category : List Nat) :
    List SearchResult :=
  docs.filterMap (fun doc =>
    if category ≠ [] ∧ doc.category ≠ category then none
    else
      let cosine := cosineSimilarity f32val fsqrt queryVec doc.vector
      let score := adaptiveScore flog cosine doc.successCount doc.failureCount
      some ⟨doc, applySourceBoost doc.source score⟩)

/-- The comparator `Store.Search` hands to `sort.Slice`:
`results[i].Score > results[j].Score`. -/
def scoreGT (x y : SearchResult) : Bool := decide (y.score < x.score)

/-- internal/rag/store.go: `Store.Search`, parameterized by the sorting routine
standing for `sort.Slice` (the stdlib only promises a sorted permutation). -/
def searchWith (sortImpl : List SearchResult → List SearchResult)
    (f32val : Nat → ℚ) (fsqrt flog : ℚ → ℚ) (docs : List Document)
    (queryVec : List Nat) (topK : Int) (category : List Nat) : List SearchResult :=
  let results := searchResultsPre f32val fsqrt flog docs queryVec category
  let results := sortImpl results
  if topK > 0 ∧ (results.length : Int) > topK then results.take topK.toNat
  else results

/-- Documented contract of `sort.Slice` with the score comparator: the output is
a permutation of the input, pairwise non-increasing in score.  Stability is
deliberately NOT part of the contract ("The sort is not guaranteed to be
stable"). -/
def SortSliceOk (sortImpl : List SearchResult → List SearchResult) : Prop :=
  ∀ l : List SearchResult,
    (sortImpl l).Perm l ∧ (sortImpl l).Pairwise (fun x y => y.score ≤ x.score)

/-! ### Go standard library `sort.Slice` (pdqsort, Go ≥ 1.19, src/sort/zsortfunc.go)

A fuel-indexed translation of the concrete stdlib implementation: every
mutation is a swap of two positions of the list.  `goSortSlice` is the entry
point matching `sort.Slice`. -/

/-- Read position `i` (Go slice indexing; all source accesses are in bounds). -/
def lget [Inhabited α] (l : List α) (i : Nat) : α := l.getD i default

/-- `data.Swap(i, j)`. -/
def lswap [Inhabited α] (l : List α) (i j : Nat) : List α :=
  (l.set i (lget l j)).set j (lget l i)

/-- Inner loop of `insertionSort_func`: shift element `j` left while it is
less than its left neighbour and `j > a`. -/
def insertInnerGo [Inhabited α] (less : α → α → Bool) (a : Nat) :
    Nat → List α → Nat → List α
  | 0, l, _ => l
  | fuel+1, l, j =>
    if a < j ∧ less (lget l j) (lget l (j-1)) = true then
      insertInnerGo less a fuel (lswap l j (j-1)) (j-1)
    else l

/-- Outer loop of `insertionSort_func`: `for i := a + 1; i < b; i++`. -/
def insertionSortGoLoop [Inhabited α] (less : α → α → Bool) (a b : Nat) :
    Nat → List α → Nat → List α
  | 0, l, _ => l
  | fuel+1, l, i =>
    if i < b then insertionSortGoLoop less a b fuel (insertInnerGo less a i l i) (i+1)
    else l

/-- `insertionSort_func(data, a, b)`. -/
def insertionSortGo [Inhabited α] (less : α → α → Bool) (l : List α) (a b : Nat) :
    List α :=
  insertionSortGoLoop less a b b l (a+1)

/-- `siftDown_func(data, lo, hi, first)` — the loop on `root`. -/
def siftDownGo [Inhabited α] (less : α → α → Bool) (hi first : Nat) :
    Nat → List α → Nat → List α
  | 0, l, _ => l
  | fuel+1, l, root =>
    let child := 2*root + 1
    if hi ≤ child then l
    else
      let child :=
        if child+1 < hi ∧ less (lget l (first+child)) (lget l (first+child+1)) = true
        then child+1 else child
      if less (lget l (first+root)) (lget l (first+child)) = false then l
      else siftDownGo less hi first fuel (lswap l (first+root) (first+child)) child

/-- `heapSort_func(data, a, b)`. -/
def heapSortGo [Inhabited α] (less : α → α → Bool) (l : List α) (a b : Nat) :
    List α :=
  let first := a
  let hi := b - a
  -- for i := (hi - 1) / 2; i >= 0; i--  (build heap; runs for i = (hi-1)/2 … 0)
  let l := (List.range ((hi - 1) / 2 + 1)).reverse.foldl
    (fun l i => siftDownGo less hi first hi l i) l
  -- for i := hi - 1; i >= 0; i--  (in Go, skipped entirely when hi = 0)
  (List.range hi).reverse.foldl
    (fun l i => siftDownGo less i first i (lswap l first (first+i)) 0) l

/-- `xorshift.Next()` on a 64-bit state (src/sort/sort_impl or zsortfunc helpers):
`x ^= x << 13; x ^= x >> 7; x ^= x << 17`. -/
def xorshiftNext (v : Nat) : Nat :=
  let m := 2^64
  let v := (v ^^^ (v * 2^13)) % m
  let v := v ^^^ (v / 2^7)
  (v ^^^ (v * 2^17)) % m

/-- `bits.Len(uint(n))`: position of the highest set bit. -/
def bitsLen (n : Nat) : Nat := if n = 0 then 0 else Nat.log2 n + 1

/-- `breakPatterns_func(data, a, b)`: xorshift-seeded swaps of three positions
around the middle, only on ranges of length ≥ 8. -/
def breakPatternsGo [Inhabited α] (l : List α) (a b : Nat) : List α :=
  let length := b - a
  if 8 ≤ length then
    let modulus := 2 ^ bitsLen length
    let idx := a + (length/4)*2 - 1
    let step := fun (st : List α × Nat) (i : Nat) =>
      let rnd := xorshiftNext st.2
      let other := rnd % modulus
      let other := if length ≤ other then other - length else other
      (lswap st.1 (idx - 1 + i) (a + other), rnd)
    (([0, 1, 2].foldl step (l, length))).1
  else l

/-- Hint returned by `choosePivot_func`. -/
inductive SortedHint where
  | increasing
  | unknown
  | decreasing
  deriving DecidableEq, Repr

/-- `order2_func`: order two positions by their elements, counting inversions. -/
def order2Go [Inhabited α] (less : α → α → Bool) (l : List α) (a b swaps : Nat) :
    Nat × Nat × Nat :=
  if less (lget l b) (lget l a) = true then (b, a, swaps+1) else (a, b, swaps)

/-- `median_func`: position of the median of three positions. -/
def medianGo [Inhabited α] (less : α → α → Bool) (l : List α) (a b c swaps : Nat) :
    Nat × Nat :=
  let (a1, b1, s1) := order2Go less l a b swaps
  let (b2, _, s2) := order2Go less l b1 c s1
  let (_, b3, s3) := order2Go less l a1 b2 s2
  (b3, s3)

/-- `medianAdjacent_func`: median of `{a-1, a, a+1}`. -/
def medianAdjacentGo [Inhabited α] (less : α → α → Bool) (l : List α)
    (a swaps : Nat) : Nat × Nat :=
  medianGo less l (a-1) a (a+1) swaps

/-- `choosePivot_func(data, a, b)`. -/
def choosePivotGo [Inhabited α] (less : α → α → Bool) (l : List α) (a b : Nat) :
    Nat × SortedHint :=
  let len := b - a
  let i := a + len/4*1
  let j := a + len/4*2
  let k := a + len/4*3
  let (j, swaps) :=
    if 8 ≤ len then
      let (i, j, k, s) :=
        if 50 ≤ len then
          let (i', s1) := medianAdjacentGo less l i 0
          let (j', s2) := medianAdjacentGo less l j s1
          let (k', s3) := medianAdjacentGo less l k s2
          (i', j', k', s3)
        else (i, j, k, 0)
      medianGo less l i j k s
    else (j, 0)
  if swaps = 0 then (j, SortedHint.increasing)
  else if swaps = 12 then (j, SortedHint.decreasing)
  else (j, SortedHint.unknown)

/-- `reverseRange_func(data, a, b)`. -/
def reverseRangeGo [Inhabited α] : Nat → List α → Nat → Nat → List α
  | 0, l, _, _ => l
  | fuel+1, l, i, j =>
    if i < j then reverseRangeGo fuel (lswap l i j) (i+1) (j-1) else l

/-- Scan of `partialInsertionSort_func`: advance `i` while `i < b` and
`!data.Less(i, i-1)`. -/
def scanSortedGo [Inhabited α] (less : α → α → Bool) (b : Nat) :
    Nat → List α → Nat → Nat
  | 0, _, i => i
  | fuel+1, l, i =>
    if i < b ∧ less (lget l i) (lget l (i-1)) = false then
      scanSortedGo less b fuel l (i+1)
    else i

/-- Left shift of `partialInsertionSort_func`: `for j := i - 1; j >= 1; j--`. -/
def shiftLeftGo [Inhabited α] (less : α → α → Bool) :
    Nat → List α → Nat → List α
  | 0, l, _ => l
  | fuel+1, l, j =>
    if 1 ≤ j ∧ less (lget l j) (lget l (j-1)) = true then
      shiftLeftGo less fuel (lswap l j (j-1)) (j-1)
    else l

/-- Right shift of `partialInsertionSort_func`: `for j := i + 1; j < b; j++`. -/
def shiftRightGo [Inhabited α] (less : α → α → Bool) (b : Nat) :
    Nat → List α → Nat → List α
  | 0, l, _ => l
  | fuel+1, l, j =>
    if j < b ∧ less (lget l j) (lget l (j-1)) = true then
      shiftRightGo less b fuel (lswap l j (j-1)) (j+1)
    else l

/-- `partialInsertionSort_func(data, a, b)`: at most 5 adjacent out-of-order
pairs are fixed; no shifting on ranges shorter than 50; returns whether the
range ended up sorted (paired with the updated list). -/
def partInsSortGo [Inhabited α] (less : α → α → Bool) (a b : Nat) :
    Nat → List α → Nat → Bool × List α
  | 0, l, _ => (false, l)
  | steps+1, l, i =>
    let i := scanSortedGo less b b l i
    if i = b then (true, l)
    else if b - a < 50 then (false, l)
    else
      let l := lswap l i (i-1)
      let l := if 2 ≤ i - a then shiftLeftGo less i l (i-1) else l
      let l := if 2 ≤ b - i then shiftRightGo less b b l (i+1) else l
      partInsSortGo less a b steps l i

/-- First scan loop of `partition_func` / `partitionEqual_func`:
advance `i` while `i ≤ j` and `cond l[i]` holds. -/
def scanUpGo [Inhabited α] (cond : List α → Nat → Bool) :
    Nat → List α → Nat → Nat → Nat
  | 0, _, i, _ => i
  | fuel+1, l, i, j =>
    if i ≤ j ∧ cond l i = true then scanUpGo cond fuel l (i+1) j else i

/-- Second scan loop: decrease `j` while `i ≤ j` and `cond l[j]` holds. -/
def scanDownGo [Inhabited α] (cond : List α → Nat → Bool) :
    Nat → List α → Nat → Nat → Nat
  | 0, _, _, j => j
  | fuel+1, l, i, j =>
    if i ≤ j ∧ cond l j = true then scanDownGo cond fuel l i (j-1) else j

/-- Main loop of `partition_func` (after the first scan found a swappable pair). -/
def partitionLoopGo [Inhabited α] (less : α → α → Bool) (aIdx : Nat) :
    Nat → List α → Nat → Nat → Nat × Bool × List α
  | 0, l, _, j => (j, false, lswap l j aIdx)
  | fuel+1, l, i, j =>
    let i := scanUpGo (fun l i => less (lget l i) (lget l aIdx)) (j+1) l i j
    let j := scanDownGo (fun l j => !(less (lget l j) (lget l aIdx))) (j+1) l i j
    if j < i then (j, false, lswap l j aIdx)
    else partitionLoopGo less aIdx fuel (lswap l i j) (i+1) (j-1)

/-- `partition_func(data, a, b, pivot)` — Hoare partition around the pivot,
which is first swapped to position `a`.  Returns (new pivot position,
already-partitioned flag, updated list). -/
def partitionGo [Inhabited α] (less : α → α → Bool) (l : List α)
    (a b pivot : Nat) : Nat × Bool × List α :=
  let l := lswap l a pivot
  let i := a + 1
  let j := b - 1
  let i := scanUpGo (fun l i => less (lget l i) (lget l a)) (j+1) l i j
  let j := scanDownGo (fun l j => !(less (lget l j) (lget l a))) (j+1) l i j
  if j < i then (j, true, lswap l j a)
  else partitionLoopGo less a b (lswap l i j) (i+1) (j-1)

/-- Main loop of `partitionEqual_func`. -/
def partitionEqualLoopGo [Inhabited α] (less : α → α → Bool) (aIdx : Nat) :
    Nat → List α → Nat → Nat → Nat × List α
  | 0, l, i, _ => (i, l)
  | fuel+1, l, i, j =>
    let i := scanUpGo (fun l i => !(less (lget l aIdx) (lget l i))) (j+1) l i j
    let j := scanDownGo (fun l j => less (lget l aIdx) (lget l j)) (j+1) l i j
    if j < i then (i, l)
    else partitionEqualLoopGo less aIdx fuel (lswap l i j) (i+1) (j-1)

/-- `partitionEqual_func(data, a, b, pivot)` — partitions into elements equal
to and greater than the pivot; returns the first index of the greater half. -/
def partitionEqualGo [Inhabited α] (less : α → α → Bool) (l : List α)
    (a b pivot : Nat) : Nat × List α :=
  let l := lswap l a pivot
  partitionEqualLoopGo less a b l (a+1) (b-1)

/-- The body/loop of `pdqsort_func(data, a, b, limit)`.  The Go `for` loop and
the recursive call on the smaller side are both fuelled; each continuation
works on a strictly shorter range, so fuel `length + 1` never runs out. -/
def pdqLoopGo [Inhabited α] (less : α → α → Bool) :
    Nat → List α → Nat → Nat → Nat → Bool → Bool → List α
  | 0, l, _, _, _, _, _ => l
  | fuel+1, l, a, b, limit, wasBalanced, wasPartitioned =>
    let length := b - a
    if length ≤ 12 then insertionSortGo less l a b
    else if limit = 0 then heapSortGo less l a b
    else
      let (l, limit) :=
        if ¬ wasBalanced then (breakPatternsGo l a b, limit - 1) else (l, limit)
      let (pivot, hint) := choosePivotGo less l a b
      let (l, pivot, hint) :=
        if hint = SortedHint.decreasing then
          (reverseRangeGo b l a (b-1), (b-1) - (pivot - a), SortedHint.increasing)
        else (l, pivot, hint)
      let pres :=
        if wasBalanced ∧ wasPartitioned ∧ hint = SortedHint.increasing then
          partInsSortGo less a b 5 l (a+1)
        else (false, l)
      if pres.1 then pres.2
      else
        let l := pres.2
        if 0 < a ∧ less (lget l (a-1)) (lget l pivot) = false then
          let (mid, l) := partitionEqualGo less l a b pivot
          pdqLoopGo less fuel l mid b limit wasBalanced wasPartitioned
        else
          let (mid, alreadyPartitioned, l) := partitionGo less l a b pivot
          let wasPartitioned := alreadyPartitioned
          let leftLen := mid - a
          let rightLen := b - mid
          let balanceThreshold := length / 8
          let wasBalanced := balanceThreshold ≤ min leftLen rightLen
          if leftLen < rightLen then
            pdqLoopGo less fuel (pdqLoopGo less fuel l a mid limit true true)
              (mid+1) b limit wasBalanced wasPartitioned
          else
            pdqLoopGo less fuel (pdqLoopGo less fuel l (mid+1) b limit true true)
              a mid limit wasBalanced wasPartitioned

/-- `sort.Slice(x, less)` for Go ≥ 1.19:
`pdqsort_func(lessSwap{less, swap}, 0, length, bits.Len(uint(length)))`. -/
def goSortSlice [Inhabited α] (less : α → α → Bool) (l : List α) : List α :=
  pdqLoopGo less (l.length + 1) l 0 l.length (bitsLen l.length) true true

/-- internal/rag/store.go: `Store.Search` with `sort.Slice` instantiated by the
Go ≥ 1.19 stdlib pdqsort. -/
def searchGo (f32val : Nat → ℚ) (fsqrt flog : ℚ → ℚ) (docs : List Document)
    (queryVec : List Nat) (topK : Int) (category : List Nat) : List SearchResult :=
  searchWith (goSortSlice scoreGT) f32val fsqrt flog docs queryVec topK category

/-! ### Binary persistence (internal/rag/store.go: Save / Load / Append)

The backing file is a byte list.  All integers are little-endian; a float32
element is written as the 4 bytes of its bit pattern. -/

/-- Four little-endian bytes of a 32-bit word (`binary.Write` of a `uint32`;
higher bits of `n` are truncated exactly as Go's `uint32(...)` conversion). -/
def le32 (n : Nat) : List Nat :=
  [n % 256, n / 256 % 256, n / (256*256) % 256, n / (256*256*256) % 256]

/-- `binary.Write` of an `int32` (two's complement, little-endian). -/
def int32Bytes (c : Int) : List Nat := le32 ((c % (2^32 : Int)).toNat)

/-- internal/rag/store.go: `writeString` — length-prefixed bytes. -/
def writeStringBytes (s : List Nat) : List Nat := le32 s.length ++ s

/-- internal/rag/store.go: `writeDoc` — one document in v2 layout. -/
def writeDocBytes (d : Document) : List Nat :=
  writeStringBytes d.text ++ writeStringBytes d.source ++ writeStringBytes d.category ++
  le32 d.vector.length ++ d.vector.flatMap le32 ++
  int32Bytes d.successCount ++ int32Bytes d.failureCount

/-- internal/rag/store.go: `Store.Save` — version word 2, document count, then
each document in v2 layout. -/
def saveBytes (docs : List Document) : List Nat :=
  le32 2 ++ le32 docs.length ++ docs.flatMap writeDocBytes

/-- Modelled from the spec (§6.1 v1 layout): the legacy v1 file format — count
first (no version header), documents without the two counter fields.  No writer
for v1 exists in the sources; this constructor builds v1 inputs for `Load` and
`Append`, following the spec byte layout. -/
def saveV1Bytes (docs : List Document) : List Nat :=
  le32 docs.length ++
  docs.flatMap (fun d =>
    writeStringBytes d.text ++ writeStringBytes d.source ++
    writeStringBytes d.category ++ le32 d.vector.length ++ d.vector.flatMap le32)

/-- Read one little-endian `uint32` from the stream (`binary.Read`). -/
def readU32 : List Nat → Option (Nat × List Nat)
  | b0 :: b1 :: b2 :: b3 :: rest =>
    some (b0 + 256 * b1 + (256*256) * b2 + (256*256*256) * b3, rest)
  | _ => none

/-- Read `n` raw bytes from the stream. -/
def readBytesN (n : Nat) (s : List Nat) : Option (List Nat × List Nat) :=
  if n ≤ s.length then some (s.take n, s.drop n) else none

/-- internal/rag/store.go: `readString` — length prefix then bytes. -/
def readStringBytes (s : List Nat) : Option (List Nat × List Nat) := do
  let (n, s) ← readU32 s
  readBytesN n s

/-- Read one little-endian `int32` (two's complement). -/
def readInt32 (s : List Nat) : Option (Int × List Nat) := do
  let (n, s) ← readU32 s
  pure (if n < 2^31 then (n : Int) else (n : Int) - 2^32, s)

/-- Read `n` float32 bit patterns (4 bytes each). -/
def readF32s : Nat → List Nat → Option (List Nat × List Nat)
  | 0, s => some ([], s)
  | n+1, s => do
    let (p, s) ← readU32 s
    let (ps, s) ← readF32s n s
    pure (p :: ps, s)

/-- One document of `Store.Load`: strings, vector, and (for v2) the counters;
v1 documents get zero counters. -/
def readDocBytes (isV2 : Bool) (s : List Nat) : Option (Document × List Nat) := do
  let (text, s) ← readStringBytes s
  let (source, s) ← readStringBytes s
  let (category, s) ← readStringBytes s
  let (dim, s) ← readU32 s
  let (vec, s) ← readF32s dim s
  if isV2 then
    let (sc, s) ← readInt32 s
    let (fc, s) ← readInt32 s
    pure (⟨text, source, category, vec, sc, fc⟩, s)
  else
    pure (⟨text, source, category, vec, 0, 0⟩, s)

/-- The document loop of `Store.Load`. -/
def readDocsBytes (isV2 : Bool) : Nat → List Nat → Option (List Document × List Nat)
  | 0, s => some ([], s)
  | n+1, s => do
    let (d, s) ← readDocBytes isV2 s
    let (ds, s) ← readDocsBytes isV2 n s
    pure (d :: ds, s)

/-- internal/rag/store.go: `Store.Load` — read the first word; if it equals the
format version 2 the next word is the count (v2), otherwise the first word
itself is the count (v1).  Trailing bytes are ignored. -/
def loadBytes (s : List Nat) : Option (List Document) := do
  let (firstWord, s) ← readU32 s
  if firstWord = 2 then
    let (count, s) ← readU32 s
    let (docs, _) ← readDocsBytes true count s
    pure docs
  else
    let (docs, _) ← readDocsBytes false firstWord s
    pure docs

/-- Overwrite the 4 bytes at offset `off` with `le32 c`
(`Seek(off, 0)` then `binary.Write` of `count+1`). -/
def overwriteU32At (s : List Nat) (off c : Nat) : List Nat :=
  s.take off ++ le32 c ++ s.drop (off + 4)

/-- internal/rag/store.go: `Store.Append`.  State is (backing file, in-memory
documents); a missing file is `none`.
* no file: `Add` + `Save`;
* first word equals 2: write the document at end of file, overwrite the count
  at offset 4 with count+1 (uint32 arithmetic), mirror into memory;
* otherwise (v1): reload from the file, append in memory, full `Save` (on a
  failed reload, save the in-memory documents plus the new one);
* a header read failure leaves file and memory unchanged (error return). -/
def appendModel (file : Option (List Nat)) (docs : List Document) (d : Document) :
    Option (List Nat) × List Document :=
  match file with
  | none => (some (saveBytes (docs ++ [d])), docs ++ [d])
  | some s =>
    match readU32 s with
    | none => (some s, docs)
    | some (firstWord, rest) =>
      if firstWord = 2 then
        match readU32 rest with
        | none => (some s, docs)
        | some (count, _) =>
          (some (overwriteU32At (s ++ writeDocBytes d) 4 ((count + 1) % 2^32)),
           docs ++ [d])
      else
        match loadBytes s with
        | some old => (some (saveBytes (old ++ [d])), old ++ [d])
        | none => (some (saveBytes (docs ++ [d])), docs ++ [d])

/-! ### UpdateScore (internal/rag/store.go) -/

/-- Increment of a Go `int32`: wraps around at `2^31 - 1`
(on the int32 range this is `c + 1` except at the maximum). -/
def inc32 (c : Int) : Int := (c + 1 + 2^31) % (2^32 : Int) - 2^31

/-- The best-match loop of `Store.UpdateScore`: strict improvement only, so the
first index attaining the maximum is kept.  `bi` starts at -1, `bs` at -1. -/
def bestMatchLoop (f32val : Nat → ℚ) (fsqrt : ℚ → ℚ) (vec : List Nat) :
    List Document → Nat → Int → ℚ → Int × ℚ
  | [], _, bi, bs => (bi, bs)
  | d :: rest, i, bi, bs =>
    let score := cosineSimilarity f32val fsqrt vec d.vector
    if bs < score then bestMatchLoop f32val fsqrt vec rest (i+1) (i : Int) score
    else bestMatchLoop f32val fsqrt vec rest (i+1) bi bs

/-- internal/rag/store.go: `Store.UpdateScore` — find the document most similar
to `vec`; if none scores at least 0.5, do nothing and report false; otherwise
bump its success or failure counter.  Pure in the file: persistence is the
caller's choice. -/
def updateScore (f32val : Nat → ℚ) (fsqrt : ℚ → ℚ) (docs : List Document)
    (vec : List Nat) (success : Bool) : Bool × List Document :=
  if docs = [] then (false, docs)
  else
    let (bestIdx, bestScore) := bestMatchLoop f32val fsqrt vec docs 0 (-1) (-1)
    if bestIdx < 0 ∨ bestScore < 1/2 then (false, docs)
    else
      let i := bestIdx.toNat
      let d := lget docs i
      let d' :=
        if success then { d with successCount := inc32 d.successCount }
        else { d with failureCount := inc32 d.failureCount }
      (true, docs.set i d')

/-! ### Retrieve (internal/rag/rag.go) -/

/-- internal/rag/rag.go: `MinScore = 0.3`. -/
def minScoreQ : ℚ := 3/10

/-- internal/rag/rag.go: `formatContext` — header line then one
`- [<source>] <text>` line per result. -/
def formatContextBytes (results : List SearchResult) : List Nat :=
  strBytes "\nRelevant knowledge (use this to pick the right command):\n" ++
  results.flatMap (fun r =>
    strBytes "- [" ++ r.doc.source ++ strBytes "] " ++ r.doc.text ++ strBytes "\n")

/-- internal/rag/rag.go: `Retrieve`.  The load and embed outcomes are inputs
(`none` = the corresponding call failed).  Returns the context bytes paired
with the returned `error` value, which is `nil` (`none`) on every path. -/
def retrieveModel (sortImpl : List SearchResult → List SearchResult)
    (f32val : Nat → ℚ) (fsqrt flog : ℚ → ℚ)
    (loadRes : Option (List Document)) (embedRes : Option (List Nat)) :
    List Nat × Option (List Nat) :=
  match loadRes with
  | none => ([], none)
  | some docs =>
    match embedRes with
    | none => ([], none)
    | some queryVec =>
      let results := searchWith sortImpl f32val fsqrt flog docs queryVec 5 []
      let relevant := results.filter (fun r => minScoreQ ≤ r.score)
      if relevant = [] then ([], none)
      else (formatContextBytes relevant, none)

/-! ### Embedding client LRU cache (internal/rag/embeddings.go)

The cache key is the query text; keys are kept abstract (`κ` with decidable
equality — Go uses `string`), values (`ν`) are the embedding vectors. -/

/-- internal/rag/embeddings.go: the `cache` map and `cacheOrder` slice of
`EmbedClient` (oldest at the front of `order`, newest at the back). -/
structure EmbedCache (κ ν : Type) where
  cache : List (κ × ν)
  order : List κ

/-- Go map lookup `e.cache[text]` on the association list. -/
def lookupKey [DecidableEq κ] (k : κ) : List (κ × ν) → Option ν
  | [] => none
  | p :: rest => if p.1 = k then some p.2 else lookupKey k rest

/-- Go map `delete` / assignment support: drop a key from the association list. -/
def eraseKey [DecidableEq κ] (k : κ) (c : List (κ × ν)) : List (κ × ν) :=
  c.filter (fun p => p.1 ≠ k)

/-- internal/rag/embeddings.go: `touchLRU` — move the key (if present) to the
back of the order slice; a loop that erases the first occurrence and appends. -/
def touchLRU [DecidableEq κ] (order : List κ) (k : κ) : List κ :=
  if k ∈ order then order.erase k ++ [k] else order

/-- internal/rag/embeddings.go: `putLRU` — when the cache is at capacity
(100), evict the key at the front of the order slice, then insert the new
entry and append its key.  (The empty-order case cannot arise from the empty
client: the order slice always carries exactly the cached keys.) -/
def putLRU [DecidableEq κ] (e : EmbedCache κ ν) (k : κ) (v : ν) : EmbedCache κ ν :=
  let e :=
    if 100 ≤ e.cache.length then
      match e.order with
      | [] => e
      | oldest :: restOrder => ⟨eraseKey oldest e.cache, restOrder⟩
    else e
  ⟨e.cache ++ [(k, v)], e.order ++ [k]⟩

/-- internal/rag/embeddings.go: the cache logic of `EmbedClient.Embed`.
`remote` is the outcome of the Ollama round trip on a miss (`none` = any of
its failure modes, which return before the cache is touched). -/
def embedStep [DecidableEq κ] (e : EmbedCache κ ν) (k : κ) (remote : Option ν) :
    EmbedCache κ ν × Option ν :=
  match lookupKey k e.cache with
  | some v => (⟨e.cache, touchLRU e.order k⟩, some v)
  | none =>
    match remote with
    | none => (e, none)
    | some v => (putLRU e k v, some v)

/-- A client state reached from `NewEmbedClient` (empty cache) by a sequence of
`Embed` calls, each given as (key, remote outcome). -/
def runEmbeds [DecidableEq κ] (ops : List (κ × Option ν)) : EmbedCache κ ν :=
  ops.foldl (fun e op => (embedStep e op.1 op.2).1) ⟨[], []⟩

/-! ### Spec-side definitions and concrete inputs -/

/-- Well-formedness of a document as a Go value: string and vector sizes fit
the 32-bit length prefixes of the file format, vector elements are 32-bit
patterns, counters are in the `int32` range. -/
def DocWF (d : Document) : Prop :=
  d.text.length < 2^32 ∧ d.source.length < 2^32 ∧ d.category.length < 2^32 ∧
  d.vector.length < 2^32 ∧ (∀ p ∈ d.vector, p < 2^32) ∧
  -2^31 ≤ d.successCount ∧ d.successCount < 2^31 ∧
  -2^31 ≤ d.failureCount ∧ d.failureCount < 2^31

instance (d : Document) : Decidable (DocWF d) := by
  unfold DocWF; infer_instance

/-- Stable descending sort by score (insertion sort is stable, so ties keep
insertion order).  This is the spec's words for the search ordering, used to
compare against the code's `sort.Slice`. -/
def stableSortDesc (l : List SearchResult) : List SearchResult :=
  l.insertionSort (fun x y => y.score ≤ x.score)

/-- Following the spec's words (C3): matching documents sorted by final score
descending, ties broken by insertion order, truncated to `k` when `k > 0`. -/
def specSearchStable (f32val : Nat → ℚ) (fsqrt flog : ℚ → ℚ)
    (docs : List Document) (queryVec : List Nat) (topK : Int)
    (category : List Nat) : List SearchResult :=
  let sorted := stableSortDesc (searchResultsPre f32val fsqrt flog docs queryVec category)
  if topK > 0 ∧ (sorted.length : Int) > topK then sorted.take topK.toNat
  else sorted

/-- IEEE bit pattern of `float32 1.0`. -/
def patOne : Nat := 1065353216

/-- Concrete float32 decoder faithful on the two patterns used by the concrete
inputs below: pattern `0x3F800000` is 1.0, pattern `0` is 0.0. -/
def cxF32 (n : Nat) : ℚ := if n = patOne then 1 else 0

/-- Concrete model of `math.Sqrt`, faithful at the points where the concrete
inputs evaluate it: `sqrt 0 = 0`, `sqrt 1 = 1`. -/
def cxSqrt (q : ℚ) : ℚ := q

/-- Concrete model of `math.Log`, faithful at the only point the concrete
inputs evaluate it: `ln 1 = 0`. -/
def cxLog (_ : ℚ) : ℚ := 0

/-- One document of the C3 counterexample store: byte `i` as text, the given
source, a one-element vector with the given pattern, zero counters. -/
def cxDoc (i : Nat) (src : String) (pat : Nat) : Document :=
  ⟨[i], strBytes src, [], [pat], 0, 0⟩

/-- The C3 counterexample store: 13 documents whose final scores are
1.2, 1.2, 0, 1.1, 1.2, 1.2, 1.1, 1.2, 1.1, 1, 1, 1.1, 1 in insertion order
(all exactly representable in float32 on this input). -/
def cxDocs : List Document :=
  [cxDoc 0 "builtin" patOne, cxDoc 1 "builtin" patOne, cxDoc 2 "history" 0,
   cxDoc 3 "learned" patOne, cxDoc 4 "builtin" patOne, cxDoc 5 "builtin" patOne,
   cxDoc 6 "learned" patOne, cxDoc 7 "builtin" patOne, cxDoc 8 "learned" patOne,
   cxDoc 9 "history" patOne, cxDoc 10 "history" patOne, cxDoc 11 "learned" patOne,
   cxDoc 12 "history" patOne]

/-- First document of the C4 counterexample v1 file. -/
def cxV1DocA : Document := ⟨[97], [], [], [], 0, 0⟩

/-- Second document of the C4 counterexample v1 file. -/
def cxV1DocB : Document := ⟨[98], [], [], [], 0, 0⟩

/-- The C4 counterexample v1 store: exactly two documents, so the legacy
file's count word collides with the v2 version word. -/
def cxV1Docs : List Document := [cxV1DocA, cxV1DocB]

/-- The document appended in the C4 counterexample. -/
def cxNewDoc : Document := ⟨[99], [], [], [], 0, 0⟩

/-- The C10 counterexample store: one perfectly matching document whose
success counter sits at the int32 maximum. -/
def cxWrapDoc : Document := ⟨[], [], [], [patOne], 2^31 - 1, 0⟩

/-- The C8 capacity scenario: 100 distinct misses fill the cache, a hit
touches key 0, then one more miss overflows it. -/
def cxLruOps : List (Nat × Option Unit) :=
  ((List.range 100).map (fun i => (i, some ()))) ++ [(0, none), (100, some ())]

/-- A witness document whose single-element vector matches the query exactly. -/
def wDocHit : Document := ⟨[], [], [], [patOne], 0, 0⟩

/-- A witness document orthogonal to the query (cosine 0). -/
def wDocMiss : Document := ⟨[], [], [], [0], 0, 0⟩

/-! ### Round-trip lemmas for the binary format -/

theorem le32_length (n : Nat) : (le32 n).length = 4 := rfl

theorem readU32_le32 {n : Nat} (h : n < 2^32) (rest : List Nat) :
    readU32 (le32 n ++ rest) = some (n, rest) := by
  have hn : n % 256 + 256 * (n / 256 % 256) + 256*256 * (n / (256*256) % 256) +
      256*256*256 * (n / (256*256*256) % 256) = n := by omega
  simp [le32, readU32, hn]

theorem readBytesN_append (s rest : List Nat) :
    readBytesN s.length (s ++ rest) = some (s, rest) := by
  simp [readBytesN, List.take_left, List.drop_left]

theorem readStringBytes_writeString {s : List Nat} (h : s.length < 2^32)
    (rest : List Nat) :
    readStringBytes (writeStringBytes s ++ rest) = some (s, rest) := by
  simp [readStringBytes, writeStringBytes, List.append_assoc, readU32_le32 h,
    readBytesN_append]

theorem readInt32_int32Bytes {c : Int} (h1 : -2^31 ≤ c) (h2 : c < 2^31)
    (rest : List Nat) :
    readInt32 (int32Bytes c ++ rest) = some (c, rest) := by
  have hp : (0:Int) ≤ c % (2^32:Int) := Int.emod_nonneg c (by norm_num)
  rw [int32Bytes]
  obtain ⟨n, hdef⟩ : ∃ n : Nat, (c % (2^32 : Int)).toNat = n := ⟨_, rfl⟩
  rw [hdef]
  have hn : (n : Int) = c % 2^32 := by rw [← hdef]; exact Int.toNat_of_nonneg hp
  have hm : n < 2^32 := by omega
  simp only [readInt32, readU32_le32 hm, Option.bind_eq_bind, Option.pure_def,
    Option.some_bind, Option.some.injEq, Prod.mk.injEq, and_true]
  split <;> omega

theorem readF32s_flatMap {v : List Nat} (h : ∀ p ∈ v, p < 2^32) (rest : List Nat) :
    readF32s v.length (v.flatMap le32 ++ rest) = some (v, rest) := by
  induction v with
  | nil => simp [readF32s]
  | cons p ps ih =>
    simp [readF32s, List.append_assoc, readU32_le32 (h p (by simp)),
      ih (fun q hq => h q (by simp [hq]))]

theorem readDocBytes_writeDoc {d : Document} (h : DocWF d) (rest : List Nat) :
    readDocBytes true (writeDocBytes d ++ rest) = some (d, rest) := by
  obtain ⟨h1, h2, h3, h4, h5, h6, h7, h8, h9⟩ := h
  simp [readDocBytes, writeDocBytes, List.append_assoc,
    readStringBytes_writeString h1, readStringBytes_writeString h2,
    readStringBytes_writeString h3, readU32_le32 h4, readF32s_flatMap h5,
    readInt32_int32Bytes h6 h7, readInt32_int32Bytes h8 h9]

theorem readDocsBytes_flatMap {docs : List Document} (h : ∀ d ∈ docs, DocWF d)
    (rest : List Nat) :
    readDocsBytes true docs.length (docs.flatMap writeDocBytes ++ rest) =
      some (docs, rest) := by
  induction docs with
  | nil => simp [readDocsBytes]
  | cons d ds ih =>
    simp [readDocsBytes, List.append_assoc, readDocBytes_writeDoc (h d (by simp)),
      ih (fun e he => h e (by simp [he]))]

theorem loadBytes_saveBytes {docs : List Document} (hlen : docs.length < 2^32)
    (hwf : ∀ d ∈ docs, DocWF d) : loadBytes (saveBytes docs) = some docs := by
  have h2 : (2 : Nat) < 2^32 := by norm_num
  have hbody := readDocsBytes_flatMap hwf ([] : List Nat)
  rw [List.append_nil] at hbody
  simp [loadBytes, saveBytes, List.append_assoc, readU32_le32 h2,
    readU32_le32 hlen, hbody]

theorem readDocBytes_v1 {d : Document} (h : DocWF d) (hs : d.successCount = 0)
    (hf : d.failureCount = 0) (rest : List Nat) :
    readDocBytes false
      (writeStringBytes d.text ++ (writeStringBytes d.source ++
       (writeStringBytes d.category ++ (le32 d.vector.length ++
       (d.vector.flatMap le32 ++ rest))))) = some (d, rest) := by
  obtain ⟨h1, h2, h3, h4, h5, _⟩ := h
  obtain ⟨t, src, cat, v, sc, fc⟩ := d
  simp only at h1 h2 h3 h4 h5 hs hf
  subst hs hf
  simp [readDocBytes, List.append_assoc, readStringBytes_writeString h1,
    readStringBytes_writeString h2, readStringBytes_writeString h3,
    readU32_le32 h4, readF32s_flatMap h5]

theorem readDocsBytes_v1 {docs : List Document} (h : ∀ d ∈ docs, DocWF d)
    (hz : ∀ d ∈ docs, d.successCount = 0 ∧ d.failureCount = 0) (rest : List Nat) :
    readDocsBytes false docs.length
      ((docs.flatMap fun d =>
        writeStringBytes d.text ++ (writeStringBytes d.source ++
        (writeStringBytes d.category ++ (le32 d.vector.length ++
        d.vector.flatMap le32)))) ++ rest) = some (docs, rest) := by
  induction docs with
  | nil => simp [readDocsBytes]
  | cons d ds ih =>
    have hd := h d (by simp)
    have hzd := hz d (by simp)
    simp [readDocsBytes, List.append_assoc,
      readDocBytes_v1 hd hzd.1 hzd.2,
      ih (fun e he => h e (by simp [he])) (fun e he => hz e (by simp [he]))]

theorem loadBytes_saveV1 {docs : List Document} (hlen : docs.length < 2^32)
    (h : ∀ d ∈ docs, DocWF d)
    (hz : ∀ d ∈ docs, d.successCount = 0 ∧ d.failureCount = 0)
    (hne : docs.length ≠ 2) :
    loadBytes (saveV1Bytes docs) = some docs := by
  have hbody := readDocsBytes_v1 h hz ([] : List Nat)
  rw [List.append_nil] at hbody
  simp [loadBytes, saveV1Bytes, readU32_le32 hlen, hne, hbody]

theorem overwriteU32At_header (w n c : Nat) (body : List Nat) :
    overwriteU32At (le32 w ++ (le32 n ++ body)) 4 c = le32 w ++ (le32 c ++ body) := by
  have ht : (le32 w ++ (le32 n ++ body)).take 4 = le32 w :=
    List.take_left' (le32_length w)
  have hd : (le32 w ++ (le32 n ++ body)).drop 8 = body := by
    rw [← List.append_assoc]
    exact List.drop_left' (by simp [le32])
  rw [overwriteU32At, ht, hd, List.append_assoc]

/-- C1 (confirmed): for every store whose documents fit the binary format
(string/vector sizes below 2^32, counters in the int32 range), `Save` followed
by `Load` reproduces the store exactly — same length, and every document equal
in text, source, category, vector (bit patterns, hence bit-identical float32),
success and failure counts; this includes the empty store, empty strings, and
arbitrary byte content. -/
theorem C1_save_load_roundtrip (docs : List Document) (hlen : docs.length < 2^32)
    (hwf : ∀ d ∈ docs, DocWF d) :
    loadBytes (saveBytes docs) = some docs :=
  loadBytes_saveBytes hlen hwf

/-- Witness for C1 at a concrete two-document store with multi-byte text,
empty fields, a three-element vector and a negative failure counter. -/
theorem C1_save_load_roundtrip_witness :
    (([⟨[97, 230, 151, 165], [], [104, 105], [0, 1065353216, 5], 3, -2⟩,
       ⟨[], strBytes "learned", [], [], 0, 0⟩] : List Document).length < 2^32 ∧
     ∀ d ∈ ([⟨[97, 230, 151, 165], [], [104, 105], [0, 1065353216, 5], 3, -2⟩,
       ⟨[], strBytes "learned", [], [], 0, 0⟩] : List Document), DocWF d) ∧
    loadBytes (saveBytes
      [⟨[97, 230, 151, 165], [], [104, 105], [0, 1065353216, 5], 3, -2⟩,
       ⟨[], strBytes "learned", [], [], 0, 0⟩]) =
      some [⟨[97, 230, 151, 165], [], [104, 105], [0, 1065353216, 5], 3, -2⟩,
       ⟨[], strBytes "learned", [], [], 0, 0⟩] :=
  ⟨⟨by decide, by decide⟩,
   C1_save_load_roundtrip _ (by decide) (by decide)⟩

/-- C4 (amended): appending to a store of size `n` saved in v2 format writes
exactly the one new document after the existing bytes and overwrites the count
header with `n+1`, so the file equals the full v2 encoding of the extended
store and a fresh load yields the original documents followed by the appended
one.  Appending with no backing file behaves exactly like add-then-save.
Appending to a v1-format file performs a full rewrite to v2 — PROVIDED the v1
file's document count is not 2: a v1 count word of 2 is indistinguishable from
the v2 version word, and the code then takes the v2 path (see the
counterexample). -/
theorem C4_append (docs : List Document) (d : Document) (mem : List Document) :
    ((∀ e ∈ docs, DocWF e) → DocWF d → docs.length + 1 < 2^32 →
      appendModel (some (saveBytes docs)) docs d =
        (some (saveBytes (docs ++ [d])), docs ++ [d]) ∧
      loadBytes (saveBytes (docs ++ [d])) = some (docs ++ [d])) ∧
    (appendModel none docs d = (some (saveBytes (docs ++ [d])), docs ++ [d])) ∧
    ((∀ e ∈ docs, DocWF e) →
     (∀ e ∈ docs, e.successCount = 0 ∧ e.failureCount = 0) →
     DocWF d → docs.length + 1 < 2^32 → docs.length ≠ 2 →
      appendModel (some (saveV1Bytes docs)) mem d =
        (some (saveBytes (docs ++ [d])), docs ++ [d]) ∧
      loadBytes (saveBytes (docs ++ [d])) = some (docs ++ [d])) := by
  refine ⟨fun hwf hd hlen => ?_, by simp [appendModel], fun hwf hz hd hlen hne => ?_⟩
  · have hn : docs.length < 2^32 := by omega
    have hwf' : ∀ e ∈ docs ++ [d], DocWF e := by
      intro e he
      rcases List.mem_append.1 he with h | h
      · exact hwf e h
      · simp at h; exact h ▸ hd
    have hload : loadBytes (saveBytes (docs ++ [d])) = some (docs ++ [d]) :=
      loadBytes_saveBytes (by simpa using hlen) hwf'
    refine ⟨?_, hload⟩
    have h2 : (2 : Nat) < 2^32 := by norm_num
    have hfw : readU32 (saveBytes docs) =
        some (2, le32 docs.length ++ docs.flatMap writeDocBytes) := by
      rw [saveBytes, List.append_assoc]
      exact readU32_le32 h2 _
    have hsnd : readU32 (le32 docs.length ++ docs.flatMap writeDocBytes) =
        some (docs.length, docs.flatMap writeDocBytes) := readU32_le32 hn _
    have hmod : (docs.length + 1) % 4294967296 = docs.length + 1 :=
      Nat.mod_eq_of_lt (by omega)
    have hover : overwriteU32At (saveBytes docs ++ writeDocBytes d) 4
        (docs.length + 1) =
        saveBytes (docs ++ [d]) := by
      have : saveBytes docs ++ writeDocBytes d =
          le32 2 ++ (le32 docs.length ++
            (docs.flatMap writeDocBytes ++ writeDocBytes d)) := by
        simp [saveBytes, List.append_assoc]
      rw [this, overwriteU32At_header]
      simp [saveBytes, List.append_assoc]
    simp [appendModel, hfw, hsnd, hmod, hover]
  · have hn : docs.length < 2^32 := by omega
    have hwf' : ∀ e ∈ docs ++ [d], DocWF e := by
      intro e he
      rcases List.mem_append.1 he with h | h
      · exact hwf e h
      · simp at h; exact h ▸ hd
    have hload : loadBytes (saveBytes (docs ++ [d])) = some (docs ++ [d]) :=
      loadBytes_saveBytes (by simpa using hlen) hwf'
    refine ⟨?_, hload⟩
    have hfw : readU32 (saveV1Bytes docs) =
        some (docs.length,
          docs.flatMap fun e =>
            writeStringBytes e.text ++ writeStringBytes e.source ++
            writeStringBytes e.category ++ le32 e.vector.length ++
            e.vector.flatMap le32) := by
      rw [saveV1Bytes]
      exact readU32_le32 hn _
    have hv1 : loadBytes (saveV1Bytes docs) = some docs :=
      loadBytes_saveV1 hn hwf hz hne
    simp [appendModel, hfw, hne, hv1]

/-- Witness for C4 at a concrete one-document v2 store, the no-file case, and a
concrete one-document v1 store. -/
theorem C4_append_witness :
    (appendModel (some (saveBytes [⟨[97], [], [], [0], 1, 0⟩]))
        [⟨[97], [], [], [0], 1, 0⟩] ⟨[98], [], [], [], 0, 0⟩ =
      (some (saveBytes ([⟨[97], [], [], [0], 1, 0⟩] ++ [⟨[98], [], [], [], 0, 0⟩])),
       [⟨[97], [], [], [0], 1, 0⟩] ++ [⟨[98], [], [], [], 0, 0⟩])) ∧
    (appendModel none [⟨[97], [], [], [0], 1, 0⟩] ⟨[98], [], [], [], 0, 0⟩ =
      (some (saveBytes ([⟨[97], [], [], [0], 1, 0⟩] ++ [⟨[98], [], [], [], 0, 0⟩])),
       [⟨[97], [], [], [0], 1, 0⟩] ++ [⟨[98], [], [], [], 0, 0⟩])) ∧
    (appendModel (some (saveV1Bytes [⟨[97], [], [], [0], 0, 0⟩])) []
        ⟨[98], [], [], [], 0, 0⟩ =
      (some (saveBytes ([⟨[97], [], [], [0], 0, 0⟩] ++ [⟨[98], [], [], [], 0, 0⟩])),
       [⟨[97], [], [], [0], 0, 0⟩] ++ [⟨[98], [], [], [], 0, 0⟩])) :=
  ⟨((C4_append [⟨[97], [], [], [0], 1, 0⟩] ⟨[98], [], [], [], 0, 0⟩ []).1
      (by decide) (by decide) (by decide)).1,
   (C4_append [⟨[97], [], [], [0], 1, 0⟩] ⟨[98], [], [], [], 0, 0⟩ []).2.1,
   ((C4_append [⟨[97], [], [], [0], 0, 0⟩] ⟨[98], [], [], [], 0, 0⟩ []).2.2
      (by decide) (by decide) (by decide) (by decide) (by decide)).1⟩

/-- Counterexample for C4 as stated: a v1-format file holding exactly two
documents starts with the word 2, which the code misreads as the v2 version
header; `Append` then takes the in-place v2 path instead of the claimed full
rewrite, overwriting the first document's text length with a bogus count.  The
resulting file differs from the v2 rewrite the claim promises. -/
theorem C4_append_cx :
    (appendModel (some (saveV1Bytes cxV1Docs)) cxV1Docs cxNewDoc).1 ≠
      some (saveBytes (cxV1Docs ++ [cxNewDoc])) := by decide

/-! ### Cosine similarity: degenerate cases and symmetry -/

theorem sumSquares_nonneg (f32val : Nat → ℚ) (v : List Nat) :
    0 ≤ sumSquares f32val v := by
  apply List.sum_nonneg
  intro x hx
  simp only [List.map_map, List.mem_map, Function.comp] at hx
  obtain ⟨y, _, rfl⟩ := hx
  exact mul_self_nonneg _

theorem zipWith_mul_sum_comm (p q : List ℚ) :
    (List.zipWith (fun x y => x * y) p q).sum =
      (List.zipWith (fun x y => x * y) q p).sum := by
  induction p generalizing q with
  | nil => cases q <;> simp
  | cons x xs ih =>
    cases q with
    | nil => simp
    | cons y ys => simp [ih ys, mul_comm]

theorem dotProd_comm (f32val : Nat → ℚ) (a b : List Nat) :
    dotProd f32val a b = dotProd f32val b a :=
  zipWith_mul_sum_comm (a.map f32val) (b.map f32val)

/-- C9 (confirmed): cosine similarity is commutative, degenerate cases
included — the length test is symmetric, the dot product commutes, and the
denominator is a commuted product of the same two square roots. -/
theorem C9_cosine_comm (f32val : Nat → ℚ) (fsqrt : ℚ → ℚ) (a b : List Nat) :
    cosineSimilarity f32val fsqrt a b = cosineSimilarity f32val fsqrt b a := by
  unfold cosineSimilarity
  rcases eq_or_ne a.length b.length with hlen | hlen
  · rcases eq_or_ne a.length 0 with hz | hz
    · rw [if_pos (Or.inr hz), if_pos (Or.inr (by omega))]
    · have ha' : ¬(a.length ≠ b.length ∨ a.length = 0) := by omega
      have hb' : ¬(b.length ≠ a.length ∨ b.length = 0) := by omega
      rw [if_neg ha', if_neg hb']
      dsimp only
      rw [dotProd_comm,
        mul_comm (fsqrt (sumSquares f32val b)) (fsqrt (sumSquares f32val a))]
  · rw [if_pos (Or.inl hlen), if_pos (Or.inl (Ne.symm hlen))]

/-- C7 (confirmed): cosine returns exactly 0 on length mismatch, on empty
input, and when either vector has zero magnitude (zero sum of squares, which
for a faithful square root makes the denominator zero); otherwise it returns
the dot product divided by the product of the two magnitudes.  `fsqrt` is
assumed faithful to `math.Sqrt` in that it vanishes exactly at 0 on
nonnegative inputs. -/
theorem C7_cosine_cases (f32val : Nat → ℚ) (fsqrt : ℚ → ℚ)
    (hz : ∀ x : ℚ, 0 ≤ x → (fsqrt x = 0 ↔ x = 0)) (a b : List Nat) :
    (a.length ≠ b.length → cosineSimilarity f32val fsqrt a b = 0) ∧
    (a = [] ∨ b = [] → cosineSimilarity f32val fsqrt a b = 0) ∧
    (sumSquares f32val a = 0 ∨ sumSquares f32val b = 0 →
      cosineSimilarity f32val fsqrt a b = 0) ∧
    (a.length = b.length → a ≠ [] →
      sumSquares f32val a ≠ 0 → sumSquares f32val b ≠ 0 →
      cosineSimilarity f32val fsqrt a b =
        dotProd f32val a b /
          (fsqrt (sumSquares f32val a) * fsqrt (sumSquares f32val b))) := by
  refine ⟨fun h => ?_, fun h => ?_, fun h => ?_, fun h1 h2 h3 h4 => ?_⟩
  · rw [cosineSimilarity, if_pos (Or.inl h)]
  · rcases h with h | h
    · rw [cosineSimilarity, if_pos (Or.inr (by simp [h]))]
    · rcases eq_or_ne a.length 0 with ha | ha
      · rw [cosineSimilarity, if_pos (Or.inr ha)]
      · rw [cosineSimilarity,
          if_pos (Or.inl (by simp only [h, List.length_nil]; exact ha))]
  · by_cases hc : a.length ≠ b.length ∨ a.length = 0
    · rw [cosineSimilarity, if_pos hc]
    · rw [cosineSimilarity, if_neg hc]
      dsimp only
      have hden : fsqrt (sumSquares f32val a) * fsqrt (sumSquares f32val b) = 0 := by
        rcases h with h | h
        · rw [(hz _ (sumSquares_nonneg f32val a)).2 h, zero_mul]
        · rw [(hz _ (sumSquares_nonneg f32val b)).2 h, mul_zero]
      rw [if_pos hden]
  · have h2' : a.length ≠ 0 := fun hh => h2 (List.length_eq_zero.1 hh)
    have hc' : ¬(a.length ≠ b.length ∨ a.length = 0) := by omega
    rw [cosineSimilarity, if_neg hc']
    dsimp only
    have hden : fsqrt (sumSquares f32val a) * fsqrt (sumSquares f32val b) ≠ 0 :=
      mul_ne_zero (fun hh => h3 ((hz _ (sumSquares_nonneg f32val a)).1 hh))
        (fun hh => h4 ((hz _ (sumSquares_nonneg f32val b)).1 hh))
    rw [if_neg hden]

unseal Nat.gcd Rat.add Rat.mul Rat.inv Rat.sub in
/-- Witness for C7: the four cases at concrete inputs, with the identity
function discharging the square-root hypothesis. -/
theorem C7_cosine_cases_witness :
    cosineSimilarity (fun n => (n : ℚ)) (fun q => q) [1] [1, 2] = 0 ∧
    cosineSimilarity (fun n => (n : ℚ)) (fun q => q) [] [] = 0 ∧
    cosineSimilarity (fun n => (n : ℚ)) (fun q => q) [0] [3] = 0 ∧
    cosineSimilarity (fun n => (n : ℚ)) (fun q => q) [1] [2] =
      dotProd (fun n => (n : ℚ)) [1] [2] /
        (sumSquares (fun n => (n : ℚ)) [1] * sumSquares (fun n => (n : ℚ)) [2]) :=
  ⟨(C7_cosine_cases _ _ (fun x _ => Iff.rfl) [1] [1, 2]).1 (by decide),
   (C7_cosine_cases _ _ (fun x _ => Iff.rfl) ([] : List Nat) []).2.1 (Or.inl rfl),
   (C7_cosine_cases _ _ (fun x _ => Iff.rfl) [0] [3]).2.2.1 (Or.inl (by decide)),
   (C7_cosine_cases _ _ (fun x _ => Iff.rfl) [1] [2]).2.2.2 rfl (by decide)
     (by decide) (by decide)⟩

/-! ### UpdateScore: best-match loop lemmas -/

theorem bestMatchLoop_no_improve (f32val : Nat → ℚ) (fsqrt : ℚ → ℚ)
    (vec : List Nat) (docs : List Document) (i : Nat) (bi : Int) (bs : ℚ)
    (h : ∀ d ∈ docs, cosineSimilarity f32val fsqrt vec d.vector ≤ bs) :
    bestMatchLoop f32val fsqrt vec docs i bi bs = (bi, bs) := by
  induction docs generalizing i with
  | nil => rfl
  | cons d ds ih =>
    rw [bestMatchLoop]
    rw [if_neg (not_lt.mpr (h d (by simp)))]
    exact ih (i+1) (fun e he => h e (by simp [he]))

theorem bestMatchLoop_ub (f32val : Nat → ℚ) (fsqrt : ℚ → ℚ)
    (vec : List Nat) (docs : List Document) (i : Nat) (bi : Int) (bs : ℚ) :
    bs ≤ (bestMatchLoop f32val fsqrt vec docs i bi bs).2 ∧
    ∀ d ∈ docs, cosineSimilarity f32val fsqrt vec d.vector ≤
      (bestMatchLoop f32val fsqrt vec docs i bi bs).2 := by
  induction docs generalizing i bi bs with
  | nil => exact ⟨le_refl _, by simp⟩
  | cons d ds ih =>
    rw [bestMatchLoop]
    by_cases hlt : bs < cosineSimilarity f32val fsqrt vec d.vector
    · rw [if_pos hlt]
      obtain ⟨h1, h2⟩ := ih (i+1) (i : Int) (cosineSimilarity f32val fsqrt vec d.vector)
      refine ⟨le_of_lt (lt_of_lt_of_le hlt h1), ?_⟩
      intro e he
      rcases List.mem_cons.1 he with rfl | he'
      · exact h1
      · exact h2 e he'
    · rw [if_neg hlt]
      obtain ⟨h1, h2⟩ := ih (i+1) bi bs
      refine ⟨h1, ?_⟩
      intro e he
      rcases List.mem_cons.1 he with rfl | he'
      · exact le_trans (not_lt.1 hlt) h1
      · exact h2 e he'

theorem bestMatchLoop_found (f32val : Nat → ℚ) (fsqrt : ℚ → ℚ)
    (vec : List Nat) (docs : List Document) (i : Nat) (bi : Int) (bs : ℚ)
    (h : ∃ d ∈ docs, bs < cosineSimilarity f32val fsqrt vec d.vector) :
    ∃ k, k < docs.length ∧
      (bestMatchLoop f32val fsqrt vec docs i bi bs).1 = ((i + k : Nat) : Int) ∧
      (bestMatchLoop f32val fsqrt vec docs i bi bs).2 =
        cosineSimilarity f32val fsqrt vec (lget docs k).vector := by
  induction docs generalizing i bi bs with
  | nil => obtain ⟨d, hd, _⟩ := h; simp at hd
  | cons d ds ih =>
    rw [bestMatchLoop]
    by_cases hlt : bs < cosineSimilarity f32val fsqrt vec d.vector
    · rw [if_pos hlt]
      by_cases hmore : ∃ e ∈ ds,
          cosineSimilarity f32val fsqrt vec d.vector <
            cosineSimilarity f32val fsqrt vec e.vector
      · obtain ⟨k, hk, h1, h2⟩ := ih (i+1) (i : Int) _ hmore
        refine ⟨k+1, by simpa using hk, ?_, ?_⟩
        · rw [h1]; congr 1; omega
        · rw [h2]; simp [lget]
      · push_neg at hmore
        rw [bestMatchLoop_no_improve f32val fsqrt vec ds (i+1) (i : Int) _ hmore]
        exact ⟨0, by simp, by simp, by simp [lget]⟩
    · rw [if_neg hlt]
      have h' : ∃ e ∈ ds, bs < cosineSimilarity f32val fsqrt vec e.vector := by
        obtain ⟨e, he, hlt'⟩ := h
        rcases List.mem_cons.1 he with rfl | he'
        · exact absurd hlt' hlt
        · exact ⟨e, he', hlt'⟩
      obtain ⟨k, hk, h1, h2⟩ := ih (i+1) bi bs h'
      refine ⟨k+1, by simpa using hk, ?_, ?_⟩
      · rw [h1]; congr 1; omega
      · rw [h2]; simp [lget]

theorem bestMatchLoop_idx_lt (f32val : Nat → ℚ) (fsqrt : ℚ → ℚ)
    (vec : List Nat) (docs : List Document) (i : Nat) (bi : Int) (bs : ℚ)
    (h : bi < (i : Int)) :
    (bestMatchLoop f32val fsqrt vec docs i bi bs).1 <
      ((i + docs.length : Nat) : Int) := by
  induction docs generalizing i bi bs with
  | nil => simpa using lt_of_lt_of_le h (by exact_mod_cast Nat.le_refl i)
  | cons d ds ih =>
    rw [bestMatchLoop]
    have hle : (i + 1 + ds.length : Nat) = (i + (d :: ds).length : Nat) := by
      simp [List.length_cons]; omega
    by_cases hlt : bs < cosineSimilarity f32val fsqrt vec d.vector
    · rw [if_pos hlt, ← hle]
      exact ih (i+1) (i : Int) (cosineSimilarity f32val fsqrt vec d.vector)
        (by exact_mod_cast Nat.lt_succ_self i)
    · rw [if_neg hlt, ← hle]
      exact ih (i+1) bi bs (lt_trans h (by exact_mod_cast Nat.lt_succ_self i))

theorem bestMatchLoop_lt (f32val : Nat → ℚ) (fsqrt : ℚ → ℚ)
    (vec : List Nat) (docs : List Document) (i : Nat) (bi : Int) (bs q : ℚ)
    (h0 : bs < q)
    (h : ∀ d ∈ docs, cosineSimilarity f32val fsqrt vec d.vector < q) :
    (bestMatchLoop f32val fsqrt vec docs i bi bs).2 < q := by
  induction docs generalizing i bi bs with
  | nil => exact h0
  | cons d ds ih =>
    rw [bestMatchLoop]
    by_cases hlt : bs < cosineSimilarity f32val fsqrt vec d.vector
    · rw [if_pos hlt]
      exact ih (i+1) (i : Int) _ (h d (by simp)) (fun e he => h e (by simp [he]))
    · rw [if_neg hlt]
      exact ih (i+1) bi bs h0 (fun e he => h e (by simp [he]))

theorem lget_set_self [Inhabited α] :
    ∀ (l : List α) (k : Nat) (x : α), k < l.length → lget (l.set k x) k = x
  | [], _, _, h => by simp at h
  | _ :: _, 0, _, _ => rfl
  | a :: l, k+1, x, h => by
    have := lget_set_self l k x (by simpa using h)
    simpa [lget, List.set] using this

theorem lget_set_ne [Inhabited α] :
    ∀ (l : List α) (k j : Nat) (x : α), j ≠ k → lget (l.set k x) j = lget l j
  | [], _, _, _, _ => by simp [List.set]
  | a :: l, 0, 0, x, h => absurd rfl h
  | a :: l, 0, j+1, x, _ => by simp [lget, List.set]
  | a :: l, k+1, 0, x, _ => by simp [lget, List.set]
  | a :: l, k+1, j+1, x, h => by
    have := lget_set_ne l k j x (by omega)
    simpa [lget, List.set] using this

theorem updateScore_true_char {f32val : Nat → ℚ} {fsqrt : ℚ → ℚ}
    (docs : List Document) (vec : List Nat) (success : Bool)
    (h : ∃ d ∈ docs, 1/2 ≤ cosineSimilarity f32val fsqrt vec d.vector) :
    ∃ k, k < docs.length ∧
      (∀ d ∈ docs, cosineSimilarity f32val fsqrt vec d.vector ≤
        cosineSimilarity f32val fsqrt vec (lget docs k).vector) ∧
      updateScore f32val fsqrt docs vec success =
        (true, docs.set k (if success then
            { lget docs k with successCount := inc32 (lget docs k).successCount }
          else
            { lget docs k with failureCount := inc32 (lget docs k).failureCount })) := by
  obtain ⟨d0, hd0, hge⟩ := h
  have hnil : docs ≠ [] := by rintro rfl; simp at hd0
  obtain ⟨k, hk, h1, h2⟩ :=
    bestMatchLoop_found f32val fsqrt vec
      docs 0 (-1) (-1) ⟨d0, hd0, lt_of_lt_of_le (by norm_num) hge⟩
  have hub := bestMatchLoop_ub f32val fsqrt vec
    docs 0 (-1) (-1)
  rcases hp : bestMatchLoop f32val fsqrt vec docs 0 (-1) (-1) with ⟨bi, bs⟩
  rw [hp] at h1 h2 hub
  simp only at h1 h2
  have hbs : 1/2 ≤ bs := le_trans hge (hub.2 d0 hd0)
  have hbi : bi = (k : Int) := by simpa using h1
  have hcond : ¬(bi < 0 ∨ bs < 1/2) := by
    push_neg
    exact ⟨by rw [hbi]; exact_mod_cast Nat.zero_le k, hbs⟩
  rw [updateScore, if_neg hnil, hp]
  simp only
  rw [if_neg hcond]
  refine ⟨k, hk, ?_, ?_⟩
  · intro d hd
    exact le_of_le_of_eq (hub.2 d hd) h2
  · rw [hbi, Int.toNat_natCast]

/-- C5 (confirmed): `UpdateScore` returns false and changes nothing when the
store is empty or every document's cosine with the query vector is below 0.5;
otherwise it returns true and bumps (with int32 increment) exactly the success
or failure counter of a document attaining the highest cosine similarity.  The
operation is pure in the backing file: persistence is the caller's separate
choice (`RecordFeedback` calls `Save` afterwards). -/
theorem C5_updateScore (f32val : Nat → ℚ) (fsqrt : ℚ → ℚ) (docs : List Document)
    (vec : List Nat) (success : Bool) :
    (docs = [] → updateScore f32val fsqrt docs vec success = (false, docs)) ∧
    ((∀ d ∈ docs, cosineSimilarity f32val fsqrt vec d.vector < 1/2) →
      updateScore f32val fsqrt docs vec success = (false, docs)) ∧
    ((∃ d ∈ docs, 1/2 ≤ cosineSimilarity f32val fsqrt vec d.vector) →
      (updateScore f32val fsqrt docs vec success).1 = true ∧
      ∃ k, k < docs.length ∧
        (∀ d ∈ docs, cosineSimilarity f32val fsqrt vec d.vector ≤
          cosineSimilarity f32val fsqrt vec (lget docs k).vector) ∧
        (updateScore f32val fsqrt docs vec success).2 =
          docs.set k (if success then
            { lget docs k with successCount := inc32 (lget docs k).successCount }
          else
            { lget docs k with failureCount := inc32 (lget docs k).failureCount })) := by
  refine ⟨fun h => by simp [updateScore, h], fun h => ?_, fun h => ?_⟩
  · by_cases hnil : docs = []
    · simp [updateScore, hnil]
    · have hlt := bestMatchLoop_lt f32val fsqrt vec
        docs 0 (-1) (-1) (1/2) (by norm_num) h
      rcases hp : bestMatchLoop f32val fsqrt vec docs 0 (-1) (-1) with ⟨bi, bs⟩
      rw [hp] at hlt
      rw [updateScore, if_neg hnil, hp]
      simp only at hlt ⊢
      rw [if_pos (Or.inr hlt)]
  · obtain ⟨k, hk, hmax, heq⟩ := updateScore_true_char docs vec success h
    rw [heq]
    exact ⟨rfl, k, hk, hmax, rfl⟩

unseal Nat.gcd Rat.add Rat.mul Rat.inv Rat.sub in
/-- Witness for C5 at a one-document store with cosine exactly 1 (≥ 0.5): the
success counter is bumped; and at a store whose only cosine is 0 (< 0.5):
nothing changes. -/
theorem C5_updateScore_witness :
    ((updateScore cxF32 cxSqrt [wDocHit] [patOne] true).1 = true ∧
     ∃ k, k < ([wDocHit] : List Document).length ∧
       (∀ d ∈ ([wDocHit] : List Document),
         cosineSimilarity cxF32 cxSqrt [patOne] d.vector ≤
           cosineSimilarity cxF32 cxSqrt [patOne] (lget [wDocHit] k).vector) ∧
       (updateScore cxF32 cxSqrt [wDocHit] [patOne] true).2 =
         ([wDocHit] : List Document).set k (if true then
           { lget [wDocHit] k with
               successCount := inc32 (lget [wDocHit] k).successCount }
         else
           { lget [wDocHit] k with
               failureCount := inc32 (lget [wDocHit] k).failureCount })) ∧
    updateScore cxF32 cxSqrt [wDocMiss] [patOne] false = (false, [wDocMiss]) :=
  ⟨(C5_updateScore cxF32 cxSqrt [wDocHit] [patOne] true).2.2
     ⟨wDocHit, by decide, by decide⟩,
   (C5_updateScore cxF32 cxSqrt [wDocMiss] [patOne] false).2.1
     (by decide)⟩

/-- C10 (amended): whenever `UpdateScore` returns true, exactly one document is
replaced at one index; only one of its two counters changes, by Go int32
increment — which is an increase by exactly 1 whenever the counter was below
the int32 maximum 2^31−1 (at the maximum it wraps to −2^31, see the
counterexample) — and its other counter, all its other fields, every other
document, and the length and order of the store are unchanged. -/
theorem C10_update_frame (f32val : Nat → ℚ) (fsqrt : ℚ → ℚ)
    (docs : List Document) (vec : List Nat) (success : Bool)
    (h : (updateScore f32val fsqrt docs vec success).1 = true) :
    ∃ k, k < docs.length ∧
      ((updateScore f32val fsqrt docs vec success).2).length = docs.length ∧
      (∀ j, j ≠ k →
        lget (updateScore f32val fsqrt docs vec success).2 j = lget docs j) ∧
      (lget (updateScore f32val fsqrt docs vec success).2 k).text =
        (lget docs k).text ∧
      (lget (updateScore f32val fsqrt docs vec success).2 k).source =
        (lget docs k).source ∧
      (lget (updateScore f32val fsqrt docs vec success).2 k).category =
        (lget docs k).category ∧
      (lget (updateScore f32val fsqrt docs vec success).2 k).vector =
        (lget docs k).vector ∧
      (success = true →
        (lget (updateScore f32val fsqrt docs vec success).2 k).successCount =
          inc32 (lget docs k).successCount ∧
        (lget (updateScore f32val fsqrt docs vec success).2 k).failureCount =
          (lget docs k).failureCount ∧
        (-2^31 ≤ (lget docs k).successCount →
          (lget docs k).successCount < 2^31 - 1 →
          (lget (updateScore f32val fsqrt docs vec success).2 k).successCount =
            (lget docs k).successCount + 1)) ∧
      (success = false →
        (lget (updateScore f32val fsqrt docs vec success).2 k).failureCount =
          inc32 (lget docs k).failureCount ∧
        (lget (updateScore f32val fsqrt docs vec success).2 k).successCount =
          (lget docs k).successCount ∧
        (-2^31 ≤ (lget docs k).failureCount →
          (lget docs k).failureCount < 2^31 - 1 →
          (lget (updateScore f32val fsqrt docs vec success).2 k).failureCount =
            (lget docs k).failureCount + 1)) := by
  by_cases hnil : docs = []
  · rw [updateScore, if_pos hnil] at h
    simp at h
  · rcases hp : bestMatchLoop f32val fsqrt vec docs 0 (-1) (-1) with ⟨bi, bs⟩
    rw [updateScore, if_neg hnil, hp] at h ⊢
    simp only at h ⊢
    by_cases hcond : bi < 0 ∨ bs < 1/2
    · rw [if_pos hcond] at h
      simp at h
    · rw [if_neg hcond] at h ⊢
      have hbound := bestMatchLoop_idx_lt f32val fsqrt vec
        docs 0 (-1) (-1) (by norm_num)
      rw [hp] at hbound
      simp only at hbound
      push_neg at hcond
      have hk : bi.toNat < docs.length := by omega
      refine ⟨bi.toNat, hk, ?_, ?_, ?_, ?_, ?_, ?_, ?_, ?_⟩
      · exact List.length_set ..
      · intro j hj
        exact lget_set_ne docs bi.toNat j _ hj
      all_goals rw [lget_set_self docs bi.toNat _ hk]
      · cases success <;> rfl
      · cases success <;> rfl
      · cases success <;> rfl
      · cases success <;> rfl
      · rintro rfl
        refine ⟨rfl, rfl, fun hlo hhi => ?_⟩
        simp [inc32]
        omega
      · rintro rfl
        refine ⟨rfl, rfl, fun hlo hhi => ?_⟩
        simp [inc32]
        omega

unseal Nat.gcd Rat.add Rat.mul Rat.inv Rat.sub in
/-- Witness for C10 at a one-document store whose cosine with the query is 1:
`UpdateScore` reports true and the frame property holds. -/
theorem C10_update_frame_witness :
    ∃ k, k < ([wDocHit] : List Document).length ∧
      ((updateScore cxF32 cxSqrt [wDocHit] [patOne] true).2).length =
        ([wDocHit] : List Document).length ∧
      (∀ j, j ≠ k →
        lget (updateScore cxF32 cxSqrt [wDocHit] [patOne] true).2 j =
          lget [wDocHit] j) ∧
      (lget (updateScore cxF32 cxSqrt [wDocHit] [patOne] true).2 k).text =
        (lget [wDocHit] k).text ∧
      (lget (updateScore cxF32 cxSqrt [wDocHit] [patOne] true).2 k).source =
        (lget [wDocHit] k).source ∧
      (lget (updateScore cxF32 cxSqrt [wDocHit] [patOne] true).2 k).category =
        (lget [wDocHit] k).category ∧
      (lget (updateScore cxF32 cxSqrt [wDocHit] [patOne] true).2 k).vector =
        (lget [wDocHit] k).vector ∧
      (true = true →
        (lget (updateScore cxF32 cxSqrt [wDocHit] [patOne] true).2 k).successCount =
          inc32 (lget [wDocHit] k).successCount ∧
        (lget (updateScore cxF32 cxSqrt [wDocHit] [patOne] true).2 k).failureCount =
          (lget [wDocHit] k).failureCount ∧
        (-2^31 ≤ (lget [wDocHit] k).successCount →
          (lget [wDocHit] k).successCount < 2^31 - 1 →
          (lget (updateScore cxF32 cxSqrt [wDocHit] [patOne] true).2 k).successCount =
            (lget [wDocHit] k).successCount + 1)) ∧
      (true = false →
        (lget (updateScore cxF32 cxSqrt [wDocHit] [patOne] true).2 k).failureCount =
          inc32 (lget [wDocHit] k).failureCount ∧
        (lget (updateScore cxF32 cxSqrt [wDocHit] [patOne] true).2 k).successCount =
          (lget [wDocHit] k).successCount ∧
        (-2^31 ≤ (lget [wDocHit] k).failureCount →
          (lget [wDocHit] k).failureCount < 2^31 - 1 →
          (lget (updateScore cxF32 cxSqrt [wDocHit] [patOne] true).2 k).failureCount =
            (lget [wDocHit] k).failureCount + 1)) :=
  C10_update_frame cxF32 cxSqrt [wDocHit] [patOne] true (by decide)

unseal Nat.gcd Rat.add Rat.mul Rat.inv Rat.sub in
/-- Counterexample for C10 as stated: with the success counter at the int32
maximum 2147483647 and a perfectly matching query, `UpdateScore` returns true
but `SuccessCount++` wraps to −2147483648 — the counter does not increase by
exactly 1. -/
theorem C10_update_frame_cx :
    (updateScore cxF32 cxSqrt [cxWrapDoc] [patOne] true).1 = true ∧
    (lget (updateScore cxF32 cxSqrt [cxWrapDoc] [patOne] true).2 0).successCount ≠
      cxWrapDoc.successCount + 1 ∧
    (lget (updateScore cxF32 cxSqrt [cxWrapDoc] [patOne] true).2 0).successCount =
      -2147483648 := by decide

/-! ### Search: ordering, category filter, top-K -/

theorem searchResultsPre_eq_filter (f32val : Nat → ℚ) (fsqrt flog : ℚ → ℚ)
    (docs : List Document) (queryVec : List Nat) (category : List Nat) :
    searchResultsPre f32val fsqrt flog docs queryVec category =
      (docs.filter (fun d => decide (category = [] ∨ d.category = category))).map
        (fun doc => ⟨doc, applySourceBoost doc.source (adaptiveScore flog
          (cosineSimilarity f32val fsqrt queryVec doc.vector)
          doc.successCount doc.failureCount)⟩) := by
  induction docs with
  | nil => rfl
  | cons d ds ih =>
    rw [searchResultsPre, List.filterMap_cons, List.filter_cons]
    by_cases hc : category ≠ [] ∧ d.category ≠ category
    · rw [if_pos hc]
      have hdec : (decide (category = [] ∨ d.category = category)) = false := by
        simp only [decide_eq_false_iff_not]
        push_neg
        exact hc
      simp only [hdec, Bool.false_eq_true, if_false]
      exact ih
    · rw [if_neg hc]
      have hdec : (decide (category = [] ∨ d.category = category)) = true := by
        simp only [decide_eq_true_eq]
        by_cases h1 : category = []
        · exact Or.inl h1
        · push_neg at hc
          exact Or.inr (hc h1)
      simp only [hdec, if_true, List.map_cons]
      exact congrArg _ ih

theorem stableSortDesc_sortSliceOk : SortSliceOk stableSortDesc := by
  intro l
  haveI ht : IsTotal SearchResult (fun x y => y.score ≤ x.score) :=
    ⟨fun a b => le_total b.score a.score⟩
  haveI htr : IsTrans SearchResult (fun x y => y.score ≤ x.score) :=
    ⟨fun _ _ _ h1 h2 => le_trans h2 h1⟩
  exact ⟨List.perm_insertionSort _ l, List.sorted_insertionSort _ l⟩

/-- C3 (amended): for any sorting routine meeting the documented contract of
`sort.Slice` (sorted permutation; ties in UNSPECIFIED order — the stdlib sort
is not stable, see the counterexample): the considered documents are exactly
the store in order when `category` is empty and the exact category matches
otherwise; the results are sorted by final score in non-increasing order; when
`k ≤ 0` the results are a permutation of all matching documents; when `k > 0`
at most `k` results are returned (exactly `min k (matches)`), each drawn from
the matching documents. -/
theorem C3_search (sortImpl : List SearchResult → List SearchResult)
    (hs : SortSliceOk sortImpl) (f32val : Nat → ℚ) (fsqrt flog : ℚ → ℚ)
    (docs : List Document) (queryVec : List Nat) (topK : Int)
    (category : List Nat) :
    searchResultsPre f32val fsqrt flog docs queryVec category =
      (docs.filter (fun d => decide (category = [] ∨ d.category = category))).map
        (fun doc => ⟨doc, applySourceBoost doc.source (adaptiveScore flog
          (cosineSimilarity f32val fsqrt queryVec doc.vector)
          doc.successCount doc.failureCount)⟩) ∧
    (searchWith sortImpl f32val fsqrt flog docs queryVec topK category).Pairwise
      (fun x y => y.score ≤ x.score) ∧
    (topK ≤ 0 →
      (searchWith sortImpl f32val fsqrt flog docs queryVec topK category).Perm
        (searchResultsPre f32val fsqrt flog docs queryVec category)) ∧
    (0 < topK →
      (searchWith sortImpl f32val fsqrt flog docs queryVec topK category).length =
        min topK.toNat
          (searchResultsPre f32val fsqrt flog docs queryVec category).length ∧
      ∀ r ∈ searchWith sortImpl f32val fsqrt flog docs queryVec topK category,
        r ∈ searchResultsPre f32val fsqrt flog docs queryVec category) := by
  obtain ⟨hperm, hpair⟩ := hs (searchResultsPre f32val fsqrt flog docs queryVec category)
  have hlen := hperm.length_eq
  refine ⟨searchResultsPre_eq_filter f32val fsqrt flog docs queryVec category,
    ?_, ?_, ?_⟩
  · rw [searchWith]
    split
    · exact hpair.sublist (List.take_sublist _ _)
    · exact hpair
  · intro hk
    rw [searchWith, if_neg (by rintro ⟨h1, _⟩; omega)]
    exact hperm
  · intro hk
    rw [searchWith]
    split
    · rename_i hcond
      constructor
      · rw [List.length_take, hlen]
      · intro r hr
        exact hperm.mem_iff.1 (List.mem_of_mem_take hr)
    · rename_i hcond
      rw [not_and] at hcond
      constructor
      · have hle : ((sortImpl (searchResultsPre f32val fsqrt flog docs queryVec
            category)).length : Int) ≤ topK := by
          by_contra hgt
          exact hcond hk (by omega)
        rw [hlen] at hle ⊢
        omega
      · intro r hr
        exact hperm.mem_iff.1 hr

/-- Witness for C3 at the concrete 13-document store, with the stable
descending sort (which satisfies the `sort.Slice` contract) as the sorting
routine. -/
theorem C3_search_witness :
    (searchWith stableSortDesc cxF32 cxSqrt cxLog cxDocs [patOne] 2 []).Pairwise
      (fun x y => y.score ≤ x.score) ∧
    (0 < (2 : Int) →
      (searchWith stableSortDesc cxF32 cxSqrt cxLog cxDocs [patOne] 2 []).length =
        min (2 : Int).toNat
          (searchResultsPre cxF32 cxSqrt cxLog cxDocs [patOne] []).length ∧
      ∀ r ∈ searchWith stableSortDesc cxF32 cxSqrt cxLog cxDocs [patOne] 2 [],
        r ∈ searchResultsPre cxF32 cxSqrt cxLog cxDocs [patOne] []) :=
  ⟨(C3_search stableSortDesc stableSortDesc_sortSliceOk cxF32 cxSqrt cxLog
      cxDocs [patOne] 2 []).2.1,
   (C3_search stableSortDesc stableSortDesc_sortSliceOk cxF32 cxSqrt cxLog
      cxDocs [patOne] 2 []).2.2.2⟩

set_option maxRecDepth 100000 in
unseal Nat.gcd Rat.add Rat.mul Rat.inv Rat.sub in
/-- Counterexample for C3 as stated: on a 13-document store whose final scores
(1.2, 1.2, 0, 1.1, 1.2, 1.2, 1.1, 1.2, 1.1, 1, 1, 1.1, 1 — all exactly
representable in float32 on this input) the stdlib pdqsort behind `sort.Slice`
returns the tied 1.2-scored documents in the order 5, 1, 7, 0, 4 rather than
insertion order 0, 1, 4, 5, 7; the output differs from the stable descending
sort the claim describes, while still being sorted by score. -/
theorem C3_search_cx :
    searchGo cxF32 cxSqrt cxLog cxDocs [patOne] 0 [] ≠
      specSearchStable cxF32 cxSqrt cxLog cxDocs [patOne] 0 [] ∧
    (searchGo cxF32 cxSqrt cxLog cxDocs [patOne] 0 []).Pairwise
      (fun x y => y.score ≤ x.score) ∧
    (searchGo cxF32 cxSqrt cxLog cxDocs [patOne] 0 []).Perm
      (specSearchStable cxF32 cxSqrt cxLog cxDocs [patOne] 0 []) := by
  refine ⟨by decide, by decide, ?_⟩
  decide

/-- C2 (confirmed): every result `Search` returns carries the score
`c · m · b` — `c` the cosine of the query with the document vector, `m` the
adaptive multiplier `1 + ln(1+successes) − 0.5·ln(1+failures)` clamped up to
0.01 when below it, `b` 1.20 for source `builtin`, 1.10 for `learned`, 1
otherwise.  Stated for any sorting routine that permutes its input (all
`sort.Slice` implementations do). -/
theorem C2_score_formula (sortImpl : List SearchResult → List SearchResult)
    (hperm : ∀ l, (sortImpl l).Perm l) (f32val : Nat → ℚ) (fsqrt flog : ℚ → ℚ)
    (docs : List Document) (queryVec : List Nat) (topK : Int)
    (category : List Nat) (r : SearchResult)
    (hr : r ∈ searchWith sortImpl f32val fsqrt flog docs queryVec topK category) :
    r.doc ∈ docs ∧
    r.score =
      cosineSimilarity f32val fsqrt queryVec r.doc.vector *
        (if 1 + flog (1 + (r.doc.successCount : ℚ)) -
              (1/2) * flog (1 + (r.doc.failureCount : ℚ)) < 1/100 then (1/100 : ℚ)
         else 1 + flog (1 + (r.doc.successCount : ℚ)) -
              (1/2) * flog (1 + (r.doc.failureCount : ℚ))) *
        (if r.doc.source = strBytes "builtin" then 12/10
         else if r.doc.source = strBytes "learned" then 11/10 else 1) := by
  have hr' : r ∈ searchResultsPre f32val fsqrt flog docs queryVec category := by
    revert hr
    rw [searchWith]
    split
    · intro hr
      exact (hperm _).mem_iff.1 (List.mem_of_mem_take hr)
    · intro hr
      exact (hperm _).mem_iff.1 hr
  rw [searchResultsPre] at hr'
  obtain ⟨doc, hdoc, hmk⟩ := List.mem_filterMap.1 hr'
  by_cases hc : category ≠ [] ∧ doc.category ≠ category
  · rw [if_pos hc] at hmk
    exact absurd hmk (by simp)
  · rw [if_neg hc] at hmk
    simp only [Option.some.injEq] at hmk
    subst hmk
    refine ⟨hdoc, ?_⟩
    simp only [applySourceBoost, adaptiveScore]
    split_ifs <;> ring

unseal Nat.gcd Rat.add Rat.mul Rat.inv Rat.sub in
/-- Witness for C2: the single result of a one-document builtin store scores
cosine 1 times multiplier 1 times boost 1.2. -/
theorem C2_score_formula_witness :
    (⟨cxDoc 0 "builtin" patOne, 6/5⟩ : SearchResult).doc ∈
      [cxDoc 0 "builtin" patOne] ∧
    (⟨cxDoc 0 "builtin" patOne, 6/5⟩ : SearchResult).score =
      cosineSimilarity cxF32 cxSqrt [patOne]
          (⟨cxDoc 0 "builtin" patOne, 6/5⟩ : SearchResult).doc.vector *
        (if 1 + cxLog (1 + ((⟨cxDoc 0 "builtin" patOne, 6/5⟩ :
              SearchResult).doc.successCount : ℚ)) -
              (1/2) * cxLog (1 + ((⟨cxDoc 0 "builtin" patOne, 6/5⟩ :
              SearchResult).doc.failureCount : ℚ)) < 1/100 then (1/100 : ℚ)
         else 1 + cxLog (1 + ((⟨cxDoc 0 "builtin" patOne, 6/5⟩ :
              SearchResult).doc.successCount : ℚ)) -
              (1/2) * cxLog (1 + ((⟨cxDoc 0 "builtin" patOne, 6/5⟩ :
              SearchResult).doc.failureCount : ℚ))) *
        (if (⟨cxDoc 0 "builtin" patOne, 6/5⟩ :
              SearchResult).doc.source = strBytes "builtin" then 12/10
         else if (⟨cxDoc 0 "builtin" patOne, 6/5⟩ :
              SearchResult).doc.source = strBytes "learned" then 11/10 else 1) :=
  C2_score_formula stableSortDesc (fun l => (stableSortDesc_sortSliceOk l).1)
    cxF32 cxSqrt cxLog [cxDoc 0 "builtin" patOne] [patOne] 0 []
    ⟨cxDoc 0 "builtin" patOne, 6/5⟩ (by decide)

theorem searchWith_pairwise (sortImpl : List SearchResult → List SearchResult)
    (hs : SortSliceOk sortImpl) (f32val : Nat → ℚ) (fsqrt flog : ℚ → ℚ)
    (docs : List Document) (queryVec : List Nat) (topK : Int)
    (category : List Nat) :
    (searchWith sortImpl f32val fsqrt flog docs queryVec topK category).Pairwise
      (fun x y => y.score ≤ x.score) := by
  obtain ⟨_, hpair⟩ := hs (searchResultsPre f32val fsqrt flog docs queryVec category)
  rw [searchWith]
  split
  · exact hpair.sublist (List.take_sublist _ _)
  · exact hpair

/-- C6 (confirmed): `Retrieve` never returns an error — the error component is
`nil` on every path; it returns the empty string when the store fails to load,
when embedding the query fails, or when no result of `search(query, 5, "")`
reaches score 0.3; otherwise it returns the block opening with a newline, the
header line `Relevant knowledge (use this to pick the right command):`, then
one `- [<source>] <text>` line per surviving result, in the
non-increasing-score order search produced them (top 5, no category filter). -/
theorem C6_retrieve (sortImpl : List SearchResult → List SearchResult)
    (hs : SortSliceOk sortImpl) (f32val : Nat → ℚ) (fsqrt flog : ℚ → ℚ) :
    (∀ loadRes embedRes,
      (retrieveModel sortImpl f32val fsqrt flog loadRes embedRes).2 = none) ∧
    (∀ embedRes,
      (retrieveModel sortImpl f32val fsqrt flog none embedRes).1 = []) ∧
    (∀ docs,
      (retrieveModel sortImpl f32val fsqrt flog (some docs) none).1 = []) ∧
    (∀ docs queryVec,
      (∀ r ∈ searchWith sortImpl f32val fsqrt flog docs queryVec 5 [],
        r.score < minScoreQ) →
      (retrieveModel sortImpl f32val fsqrt flog (some docs) (some queryVec)).1 =
        []) ∧
    (∀ docs queryVec,
      (searchWith sortImpl f32val fsqrt flog docs queryVec 5 []).filter
          (fun r => decide (minScoreQ ≤ r.score)) ≠ [] →
      (retrieveModel sortImpl f32val fsqrt flog (some docs) (some queryVec)).1 =
        formatContextBytes
          ((searchWith sortImpl f32val fsqrt flog docs queryVec 5 []).filter
            (fun r => decide (minScoreQ ≤ r.score))) ∧
      ((searchWith sortImpl f32val fsqrt flog docs queryVec 5 []).filter
          (fun r => decide (minScoreQ ≤ r.score))).Pairwise
        (fun x y => y.score ≤ x.score)) := by
  refine ⟨?_, fun _ => rfl, fun _ => rfl, ?_, ?_⟩
  · intro loadRes embedRes
    rcases loadRes with _ | docs
    · rfl
    rcases embedRes with _ | queryVec
    · rfl
    simp only [retrieveModel]
    split <;> rfl
  · intro docs queryVec h
    have hfil : (searchWith sortImpl f32val fsqrt flog docs queryVec 5 []).filter
        (fun r => decide (minScoreQ ≤ r.score)) = [] := by
      rw [List.filter_eq_nil_iff]
      intro r hr
      simp only [decide_eq_true_eq, not_le]
      exact h r hr
    simp only [retrieveModel]
    rw [if_pos hfil]
  · intro docs queryVec h
    refine ⟨?_, ?_⟩
    · simp only [retrieveModel]
      rw [if_neg h]
    · exact (searchWith_pairwise sortImpl hs f32val fsqrt flog docs
        queryVec 5 []).sublist (List.filter_sublist _)

unseal Nat.gcd Rat.add Rat.mul Rat.inv Rat.sub in
/-- Witness for C6: the five clauses at concrete stores — no error value, empty
output on load failure, embed failure and an all-low-score store, and the
formatted block on a store with one qualifying result. -/
theorem C6_retrieve_witness :
    (retrieveModel stableSortDesc cxF32 cxSqrt cxLog (some cxDocs)
      (some [patOne])).2 = none ∧
    (retrieveModel stableSortDesc cxF32 cxSqrt cxLog none (some [patOne])).1 = [] ∧
    (retrieveModel stableSortDesc cxF32 cxSqrt cxLog (some cxDocs) none).1 = [] ∧
    (retrieveModel stableSortDesc cxF32 cxSqrt cxLog (some [wDocMiss])
      (some [patOne])).1 = [] ∧
    (retrieveModel stableSortDesc cxF32 cxSqrt cxLog
        (some [cxDoc 0 "builtin" patOne]) (some [patOne])).1 =
      formatContextBytes
        ((searchWith stableSortDesc cxF32 cxSqrt cxLog [cxDoc 0 "builtin" patOne]
            [patOne] 5 []).filter (fun r => decide (minScoreQ ≤ r.score))) :=
  ⟨(C6_retrieve stableSortDesc stableSortDesc_sortSliceOk cxF32 cxSqrt cxLog).1
      (some cxDocs) (some [patOne]),
   (C6_retrieve stableSortDesc stableSortDesc_sortSliceOk cxF32 cxSqrt cxLog).2.1
      (some [patOne]),
   (C6_retrieve stableSortDesc stableSortDesc_sortSliceOk cxF32 cxSqrt cxLog).2.2.1
      cxDocs,
   (C6_retrieve stableSortDesc stableSortDesc_sortSliceOk cxF32 cxSqrt cxLog).2.2.2.1
      [wDocMiss] [patOne] (by decide),
   ((C6_retrieve stableSortDesc stableSortDesc_sortSliceOk cxF32 cxSqrt cxLog).2.2.2.2
      [cxDoc 0 "builtin" patOne] [patOne] (by decide)).1⟩

/-! ### Embedding-client LRU cache lemmas -/

theorem lookupKey_eq_none_iff [DecidableEq κ] (k : κ) (c : List (κ × ν)) :
    lookupKey k c = none ↔ k ∉ c.map Prod.fst := by
  induction c with
  | nil => simp [lookupKey]
  | cons p rest ih =>
    rw [lookupKey]
    by_cases hp : p.1 = k
    · simp [hp]
    · simp only [List.map_cons, List.mem_cons]
      rw [if_neg hp, ih]
      constructor
      · rintro hk (rfl | hmem)
        · exact hp rfl
        · exact hk hmem
      · intro hk hmem
        exact hk (Or.inr hmem)

theorem lookupKey_append [DecidableEq κ] (k : κ) (c₁ c₂ : List (κ × ν))
    (h : lookupKey k c₁ = none) :
    lookupKey k (c₁ ++ c₂) = lookupKey k c₂ := by
  induction c₁ with
  | nil => rfl
  | cons p rest ih =>
    rw [lookupKey] at h
    rw [List.cons_append, lookupKey]
    by_cases hp : p.1 = k
    · rw [if_pos hp] at h
      exact absurd h (by simp)
    · rw [if_neg hp] at h ⊢
      exact ih h

theorem lookupKey_singleton_self [DecidableEq κ] (k : κ) (v : ν) :
    lookupKey k [(k, v)] = some v := by
  simp [lookupKey]

theorem lookupKey_singleton_ne [DecidableEq κ] (k k' : κ) (v : ν) (h : k' ≠ k) :
    lookupKey k [(k', v)] = none := by
  simp [lookupKey, h]

theorem map_fst_eraseKey [DecidableEq κ] (k : κ) (c : List (κ × ν)) :
    (eraseKey k c).map Prod.fst =
      (c.map Prod.fst).filter (fun x => decide (x ≠ k)) := by
  induction c with
  | nil => rfl
  | cons p rest ih =>
    rw [eraseKey, List.filter_cons, List.map_cons, List.filter_cons]
    rw [eraseKey] at ih
    simp only [ne_eq, decide_not] at ih
    by_cases hp : p.1 = k
    · simp [hp, ih]
    · simp [hp, ih]

theorem lookupKey_eraseKey_self [DecidableEq κ] (k : κ) (c : List (κ × ν)) :
    lookupKey k (eraseKey k c) = none := by
  rw [lookupKey_eq_none_iff, map_fst_eraseKey]
  intro hmem
  have := List.of_mem_filter hmem
  simp at this

theorem lookupKey_eraseKey_none [DecidableEq κ] (k o : κ) (c : List (κ × ν))
    (h : lookupKey k c = none) : lookupKey k (eraseKey o c) = none := by
  rw [lookupKey_eq_none_iff] at h ⊢
  rw [map_fst_eraseKey]
  intro hmem
  exact h (List.mem_of_mem_filter hmem)

theorem embedStep_inv [DecidableEq κ] (e : EmbedCache κ ν) (k : κ) (r : Option ν)
    (h1 : (e.cache.map Prod.fst).Perm e.order) (h2 : e.order.Nodup)
    (h3 : e.cache.length ≤ 100) :
    (((embedStep e k r).1.cache.map Prod.fst).Perm (embedStep e k r).1.order) ∧
    (embedStep e k r).1.order.Nodup ∧
    (embedStep e k r).1.cache.length ≤ 100 := by
  rcases hl : lookupKey k e.cache with _ | v
  · rcases r with _ | v
    · simpa [embedStep, hl] using ⟨h1, h2, h3⟩
    · have hknot : k ∉ e.cache.map Prod.fst := (lookupKey_eq_none_iff k e.cache).1 hl
      have hkorder : k ∉ e.order := fun hk => hknot (h1.mem_iff.2 hk)
      simp only [embedStep, hl]
      rw [putLRU]
      by_cases hcap : 100 ≤ e.cache.length
      · have hlen : (e.cache.map Prod.fst).length = e.order.length := h1.length_eq
        have hord : e.order ≠ [] := by
          intro h0
          have hz := h1.length_eq
          rw [h0, List.length_map] at hz
          simp only [List.length_nil] at hz
          omega
        obtain ⟨oldest, rest, hrest⟩ := List.exists_cons_of_ne_nil hord
        rw [if_pos hcap, hrest]
        simp only
        have hnodup_rest : rest.Nodup := by
          rw [hrest] at h2
          exact (List.nodup_cons.1 h2).2
        have hold_rest : oldest ∉ rest := by
          rw [hrest] at h2
          exact (List.nodup_cons.1 h2).1
        have hperm' : ((eraseKey oldest e.cache).map Prod.fst).Perm rest := by
          rw [map_fst_eraseKey]
          refine (h1.filter (fun x => decide (x ≠ oldest))).trans ?_
          rw [hrest, List.filter_cons]
          have hoo : (decide (oldest ≠ oldest)) = false := by simp
          rw [hoo]
          simp only [Bool.false_eq_true, if_false]
          rw [List.filter_eq_self.2 (fun a ha => by
            simp only [ne_eq, decide_eq_true_eq]
            exact fun hh => hold_rest (hh ▸ ha))]
        refine ⟨?_, ?_, ?_⟩
        · rw [List.map_append]
          exact hperm'.append_right _
        · rw [List.nodup_append]
          refine ⟨hnodup_rest, List.nodup_singleton k, ?_⟩
          intro x hx hx'
          simp only [List.mem_singleton] at hx'
          subst hx'
          exact hkorder (by rw [hrest]; exact List.mem_cons_of_mem _ hx)
        · rw [List.length_append]
          have he : (eraseKey oldest e.cache).length = rest.length := by
            have := hperm'.length_eq
            rwa [List.length_map] at this
          have : rest.length + 1 = e.order.length := by rw [hrest]; rfl
          rw [List.length_map] at hlen
          simp only [List.length_singleton]
          omega
      · rw [if_neg hcap]
        simp only
        refine ⟨?_, ?_, ?_⟩
        · rw [List.map_append]
          exact h1.append_right _
        · rw [List.nodup_append]
          exact ⟨h2, List.nodup_singleton k, fun x hx hx' => by
            simp only [List.mem_singleton] at hx'
            exact hkorder (hx' ▸ hx)⟩
        · rw [List.length_append]
          simp only [List.length_singleton]
          omega
  · simp only [embedStep, hl]
    have hkmem : k ∈ e.cache.map Prod.fst := by
      by_contra hk
      rw [← lookupKey_eq_none_iff] at hk
      rw [hl] at hk
      cases hk
    have hkord : k ∈ e.order := h1.mem_iff.1 hkmem
    refine ⟨?_, ?_, h3⟩
    · rw [touchLRU, if_pos hkord]
      exact h1.trans ((List.perm_cons_erase hkord).trans
        (List.perm_append_singleton k _).symm)
    · rw [touchLRU, if_pos hkord]
      rw [List.nodup_append]
      exact ⟨h2.erase k, List.nodup_singleton k, fun x hx hx' => by
        simp only [List.mem_singleton] at hx'
        subst hx'
        exact h2.not_mem_erase hx⟩

theorem runEmbeds_foldl_inv [DecidableEq κ] (ops : List (κ × Option ν))
    (e : EmbedCache κ ν)
    (h1 : (e.cache.map Prod.fst).Perm e.order) (h2 : e.order.Nodup)
    (h3 : e.cache.length ≤ 100) :
    (((ops.foldl (fun e op => (embedStep e op.1 op.2).1) e).cache.map
        Prod.fst).Perm
      (ops.foldl (fun e op => (embedStep e op.1 op.2).1) e).order) ∧
    (ops.foldl (fun e op => (embedStep e op.1 op.2).1) e).order.Nodup ∧
    (ops.foldl (fun e op => (embedStep e op.1 op.2).1) e).cache.length ≤ 100 := by
  induction ops generalizing e with
  | nil => exact ⟨h1, h2, h3⟩
  | cons op rest ih =>
    obtain ⟨a, b, c⟩ := embedStep_inv e op.1 op.2 h1 h2 h3
    exact ih _ a b c

theorem runEmbeds_inv [DecidableEq κ] (ops : List (κ × Option ν)) :
    (((runEmbeds ops : EmbedCache κ ν).cache.map Prod.fst).Perm
      (runEmbeds ops).order) ∧
    (runEmbeds ops : EmbedCache κ ν).order.Nodup ∧
    (runEmbeds ops : EmbedCache κ ν).cache.length ≤ 100 :=
  runEmbeds_foldl_inv ops ⟨[], []⟩ (by simp) (by simp) (by simp)

set_option maxRecDepth 100000 in
/-- C8 (confirmed): from the empty client, the cache never exceeds 100
entries; a hit returns the cached vector, leaves the cache unchanged and
promotes the key to most-recently-used (back of the order slice); a successful
miss inserts the key, first evicting the least-recently-used key (front of the
order slice) when at capacity; and in the concrete fill-touch-overflow
scenario the evicted key 1 is gone while the touched key 0 survives with the
cache still at 100. -/
theorem C8_lru_cache :
    (∀ (κ ν : Type) [DecidableEq κ] (ops : List (κ × Option ν)),
      (runEmbeds ops : EmbedCache κ ν).cache.length ≤ 100) ∧
    (∀ (κ ν : Type) [DecidableEq κ] (ops : List (κ × Option ν)) (k : κ)
        (v : ν) (r : Option ν),
      lookupKey k (runEmbeds ops : EmbedCache κ ν).cache = some v →
      (embedStep (runEmbeds ops) k r).2 = some v ∧
      (embedStep (runEmbeds ops) k r).1.cache = (runEmbeds ops).cache ∧
      ((embedStep (runEmbeds ops) k r).1.order).getLast? = some k) ∧
    (∀ (κ ν : Type) [DecidableEq κ] (ops : List (κ × Option ν)) (k : κ) (v : ν),
      lookupKey k (runEmbeds ops : EmbedCache κ ν).cache = none →
      lookupKey k (embedStep (runEmbeds ops) k (some v)).1.cache = some v ∧
      (∀ oldest rest, (runEmbeds ops : EmbedCache κ ν).order = oldest :: rest →
        100 ≤ (runEmbeds ops : EmbedCache κ ν).cache.length →
        lookupKey oldest (embedStep (runEmbeds ops) k (some v)).1.cache =
          none)) ∧
    (lookupKey 1 (runEmbeds cxLruOps).cache = none ∧
     (lookupKey 0 (runEmbeds cxLruOps).cache).isSome = true ∧
     (runEmbeds cxLruOps).cache.length = 100) := by
  refine ⟨?_, ?_, ?_, by decide⟩
  · intro κ ν _ ops
    exact (runEmbeds_inv ops).2.2
  · intro κ ν _ ops k v r hl
    obtain ⟨hperm, hnodup, _⟩ := runEmbeds_inv ops
    refine ⟨by simp [embedStep, hl], by simp [embedStep, hl], ?_⟩
    simp only [embedStep, hl]
    have hkmem : k ∈ (runEmbeds ops : EmbedCache κ ν).cache.map Prod.fst := by
      by_contra hk
      rw [← lookupKey_eq_none_iff] at hk
      rw [hl] at hk
      cases hk
    have hkord : k ∈ (runEmbeds ops : EmbedCache κ ν).order := hperm.mem_iff.1 hkmem
    rw [touchLRU, if_pos hkord]
    exact List.getLast?_concat _
  · intro κ ν _ ops k v hl
    constructor
    · simp only [embedStep, hl]
      rw [putLRU]
      by_cases hcap : 100 ≤ (runEmbeds ops : EmbedCache κ ν).cache.length
      · rcases horder : (runEmbeds ops : EmbedCache κ ν).order with _ | ⟨oldest, rest⟩
        · rw [if_pos hcap]
          show lookupKey k ((runEmbeds ops : EmbedCache κ ν).cache ++ [(k, v)]) =
            some v
          rw [lookupKey_append k _ _ hl, lookupKey_singleton_self]
        · rw [if_pos hcap]
          show lookupKey k
            (eraseKey oldest (runEmbeds ops : EmbedCache κ ν).cache ++ [(k, v)]) =
            some v
          rw [lookupKey_append k _ _ (lookupKey_eraseKey_none k oldest _ hl),
            lookupKey_singleton_self]
      · rw [if_neg hcap]
        show lookupKey k ((runEmbeds ops : EmbedCache κ ν).cache ++ [(k, v)]) =
          some v
        rw [lookupKey_append k _ _ hl, lookupKey_singleton_self]
    · intro oldest rest horder hcap
      obtain ⟨hperm, hnodup, _⟩ := runEmbeds_inv ops
      have holdmem : oldest ∈ (runEmbeds ops : EmbedCache κ ν).order := by
        rw [horder]
        exact List.mem_cons_self _ _
      have holdcache : oldest ∈ (runEmbeds ops : EmbedCache κ ν).cache.map Prod.fst :=
        hperm.mem_iff.2 holdmem
      have hkne : oldest ≠ k := by
        intro hh
        rw [hh] at holdcache
        exact (lookupKey_eq_none_iff k _).1 hl holdcache
      simp only [embedStep, hl]
      rw [putLRU, if_pos hcap, horder]
      show lookupKey oldest
        (eraseKey oldest (runEmbeds ops : EmbedCache κ ν).cache ++ [(k, v)]) = none
      rw [lookupKey_append oldest _ _ (lookupKey_eraseKey_self oldest _),
        lookupKey_singleton_ne oldest k v (Ne.symm hkne)]

/-- Witness for C8: the size bound, the hit clause at a one-entry cache, and
the miss-insert clause at the empty cache, all at concrete keys. -/
theorem C8_lru_cache_witness :
    (runEmbeds [((0 : Nat), some ())] : EmbedCache Nat Unit).cache.length ≤ 100 ∧
    ((embedStep (runEmbeds [((0 : Nat), some ())] : EmbedCache Nat Unit) 0
        none).2 = some () ∧
     (embedStep (runEmbeds [((0 : Nat), some ())] : EmbedCache Nat Unit) 0
        none).1.cache = (runEmbeds [((0 : Nat), some ())]).cache ∧
     ((embedStep (runEmbeds [((0 : Nat), some ())] : EmbedCache Nat Unit) 0
        none).1.order).getLast? = some 0) ∧
    lookupKey 1 (embedStep (runEmbeds ([] : List (Nat × Option Unit))) 1
      (some ())).1.cache = some () :=
  ⟨C8_lru_cache.1 Nat Unit [((0 : Nat), some ())],
   C8_lru_cache.2.1 Nat Unit [((0 : Nat), some ())] 0 () none (by decide),
   (C8_lru_cache.2.2.1 Nat Unit ([] : List (Nat × Option Unit)) 1 () rfl).1⟩
